import Mathlib

/-!
protoc-gen-triple-gateway: binding classification, query filter, file gating.

A shallow embedding of `internal/gengateway/template.go` and
`internal/gengateway/generator.go`.

* Go slices are lists, Go `map[string]bool` sets are duplicate-free lists,
  nil-able pointers are `Option`.
* The descriptor objects form a cyclic pointer graph in Go
  (`Binding.Method`, `Method.Service`).  The embedding keeps the owning
  direction (`File → Service → Method → Binding`) and hands the method a
  binding belongs to to the template-side wrapper `binding` as the field
  `Method`, which is what the promoted field `b.Method` denotes there.
* `text/template` execution and `format.Source` produce text; they are taken
  as parameters that either yield text or fail.  The decisions the templates
  take (`if`/`else` on the binding) are embedded as Boolean functions.
* The registry is mutable state behind a pointer; it is threaded explicitly.
-/

namespace gengateway

/-! ## Descriptor data model -/

/-- Modelled from the spec: `descriptor.GoPackage` is not part of the two source
files; the generator compares packages with `==` and reads `Path`, `Name` and
`Alias`. -/
structure GoPackage where
  Path : String
  Name : String
  Alias : String
  deriving DecidableEq, Repr

/-- Modelled from the spec: a message field as the generator sees it:
`GetName`, `GetTypeName`, and the two facts about a path parameter's target the
spec lists (enum-typed, repeated cardinality). -/
structure Field where
  Name : String
  TypeName : String
  Enum : Bool
  Repeated : Bool
  deriving DecidableEq, Repr

/-- Modelled from the spec: `descriptor.FieldPath`, a sequence of components;
only the component names matter here. -/
abbrev FieldPath := List String

/-- Modelled from the spec: `FieldPath.String()` is the dotted field-path, the
component names joined by `"."`. -/
def FieldPath.String (fp : FieldPath) : String :=
  ".".intercalate fp

/-- Body of a binding (`descriptor.Body`): a field path, empty for `body: "*"`. -/
structure Body where
  FieldPath : FieldPath
  deriving DecidableEq, Repr

/-- Path parameter (`descriptor.Parameter`): its field path and target field. -/
structure Parameter where
  FieldPath : FieldPath
  Target : Field
  deriving DecidableEq, Repr

/-- Modelled from the spec: `Parameter.IsEnum`, the target field is enum-typed. -/
def Parameter.IsEnum (p : Parameter) : Bool := p.Target.Enum

/-- Modelled from the spec: `Parameter.IsRepeated`, the target field has
repeated cardinality. -/
def Parameter.IsRepeated (p : Parameter) : Bool := p.Target.Repeated

/-- Compiled path template (`httprule.Template`); only the template text is
inspected by the generator itself. -/
structure PathTemplate where
  Template : String
  deriving DecidableEq, Repr

/-- Request or response message: name, fields, and the Go package of the file
that declares it (`m.File.GoPkg`). -/
structure Message where
  Name : String
  Fields : List Field
  GoPkg : GoPackage
  deriving DecidableEq, Repr

/-- The binding as stored in a method (`descriptor.Binding` without the
back-pointer to its method). -/
structure Binding where
  Index : Nat
  HTTPMethod : String
  PathTmpl : PathTemplate
  PathParams : List Parameter
  Body : Option gengateway.Body
  ResponseBody : Option gengateway.Body
  deriving DecidableEq, Repr

/-- Method (`descriptor.Method`). -/
structure Method where
  Name : String
  RequestType : Message
  ResponseType : Message
  ClientStreaming : Bool
  ServerStreaming : Bool
  Bindings : List Binding
  deriving DecidableEq, Repr

/-- Service (`descriptor.Service`).  `Ptr` stands for the identity of the Go
object: the registry keys duplicate annotations by `*Service`. -/
structure Service where
  Ptr : Nat
  Name : String
  Methods : List Method
  deriving DecidableEq, Repr

/-- File (`descriptor.File`). -/
structure File where
  Name : String
  GoPkg : GoPackage
  GeneratedFilenamePrefix : String
  Messages : List Message
  Services : List Service
  deriving DecidableEq, Repr

/-- Enum (`descriptor.Enum`): only the package of the declaring file is read. -/
structure Enum where
  GoPkg : GoPackage
  deriving DecidableEq, Repr

/-! ## Registry -/

/-- Key of the duplicate-annotation table: verb, path template, owning service. -/
structure annotationIdentifier where
  method : String
  pathTemplate : String
  service : Nat
  deriving DecidableEq, Repr

/-- Modelled from the spec: `descriptor.Registry` is not part of the two source
files.  It holds the duplicate-annotation table keyed by (verb, path template,
owning service), the reserved aliases (alias, module path), the enums by
fully-qualified name, and the package-doc switch. -/
structure Registry where
  annotationMap : List annotationIdentifier
  pkgAliases : List (String × String)
  enums : List (String × Enum)
  omitPackageDoc : Bool
  deriving DecidableEq, Repr

/-- Errors the generator hands back. `errNoTargetService` is the sentinel of
`generator.go`; the others carry the text of errors created elsewhere and are
never equal to the sentinel. -/
inductive Err where
  | errNoTargetService
  | duplicateAnnotation (method : String) (template : String)
  | templateError (msg : String)
  | formatError (msg : String)
  deriving DecidableEq, Repr

/-- Modelled from the spec: `Registry.CheckDuplicateAnnotation`: each new
(verb, path-template) pair is checked against all previously accepted pairs for
that service; a match is an error, otherwise the pair is recorded. -/
def Registry.CheckDuplicateAnnotation (r : Registry) (httpMethod httpTemplate : String)
    (svc : Service) : Registry × Option Err :=
  let a : annotationIdentifier := ⟨httpMethod, httpTemplate, svc.Ptr⟩
  if a ∈ r.annotationMap then
    (r, some (Err.duplicateAnnotation httpMethod httpTemplate))
  else
    ({ r with annotationMap := a :: r.annotationMap }, none)

/-- Modelled from the spec: `Registry.LookupEnum("", name)`: enum lookup by
fully-qualified type name. -/
def Registry.LookupEnum (r : Registry) (name : String) : Option Enum :=
  (r.enums.find? (fun e => e.1 == name)).map Prod.snd

/-- Modelled from the spec: `Registry.GetOmitPackageDoc`. -/
def Registry.GetOmitPackageDoc (r : Registry) : Bool := r.omitPackageDoc

/-! ## Query filter -/

/-- Modelled from the spec: `utilities.DoubleArray` is not part of the two
source files.  The spec describes an excluded-path membership structure whose
build cost is proportional to the total number of path segments and whose query
cost depends only on the length of the queried path: a trie over path segments,
each node recording whether a registered path ends there. -/
inductive DoubleArray where
  | node (terminal : Bool) (children : List (String × DoubleArray))

namespace DoubleArray

/-- The structure holding no path. -/
def empty : DoubleArray := node false []

/-- Child of a node list under a segment. -/
def child? (seg : String) : List (String × DoubleArray) → Option DoubleArray
  | [] => none
  | (k, t) :: rest => if k = seg then some t else child? seg rest

/-- Replace the child under `seg` by `f` of it, creating it from the empty
structure when absent. -/
def updateChild (f : DoubleArray → DoubleArray) (seg : String) :
    List (String × DoubleArray) → List (String × DoubleArray)
  | [] => [(seg, f empty)]
  | (k, t) :: rest =>
    if k = seg then (k, f t) :: rest else (k, t) :: updateChild f seg rest

/-- Register one path: walk (and extend) the trie along its segments and mark
the node reached. -/
def insert : List String → DoubleArray → DoubleArray
  | [], node _ ch => node true ch
  | seg :: rest, node term ch => node term (updateChild (insert rest) seg ch)

/-- Modelled from the spec: the "is this field-path excluded" query, one step
per segment of the queried path. -/
def IsExcluded : DoubleArray → List String → Bool
  | node term _, [] => term
  | node _ ch, seg :: rest =>
    match child? seg ch with
    | none => false
    | some t => IsExcluded t rest

end DoubleArray

/-- Modelled from the spec: `utilities.NewDoubleArray(seqs)` builds the
membership structure by registering the sequences in the order given. -/
def NewDoubleArray (seqs : List (List String)) : DoubleArray :=
  seqs.foldl (fun da s => DoubleArray.insert s da) DoubleArray.empty

end gengateway

namespace gengateway

/-! ## Binding classifier (`template.go`) -/

/-- Scan of `strings.Split` for a non-empty separator: `skip` counts the
characters of a separator occurrence still to be passed over, `cur` holds the
piece being read, reversed. -/
def splitLoop (sep : List Char) : List Char → Nat → List Char → List (List Char)
  | [], _, cur => [cur.reverse]
  | _ :: cs, skip + 1, cur => splitLoop sep cs skip cur
  | c :: cs, 0, cur =>
    if sep.isPrefixOf (c :: cs) then cur.reverse :: splitLoop sep cs (sep.length - 1) []
    else splitLoop sep cs 0 (c :: cur)

/-- Go `strings.Split`: the pieces of `s` between the occurrences of `sep`
(one piece more than there are occurrences); with an empty separator, the
characters of `s`. -/
def Split (s sep : String) : List String :=
  if sep.data = [] then s.data.map (fun c => String.mk [c])
  else (splitLoop sep.data s.data 0 []).map String.mk

/-- The wrapper `binding` of `template.go`: the embedded descriptor binding, the
method it belongs to (`b.Method`), the registry and the patch switch. -/
structure binding extends Binding where
  Method : Method
  Registry : Registry
  AllowPatchFeature : Bool

/-- Wrapper `queryParamFilter` of `template.go` around the membership structure. -/
structure queryParamFilter where
  DoubleArray : DoubleArray

/-- Go `map[string]bool` used as a set of keys. -/
abbrev StringSet := List String

/-- Assignment `m[k] = true`. -/
def StringSet.set (m : StringSet) (k : String) : StringSet :=
  if k ∈ m then m else m ++ [k]

/-- Builtin `delete(m, k)`. -/
def StringSet.delete (m : StringSet) (k : String) : StringSet :=
  m.filter (fun x => x ≠ k)

/-- `binding.GetBodyFieldPath`. -/
def binding.GetBodyFieldPath (b : binding) : String :=
  match b.Body with
  | some body => if body.FieldPath.length ≠ 0 then body.FieldPath.String else "*"
  | none => "*"

/-- `binding.GetBodyFieldStructName`; `camel` is `casing.Camel`. -/
def binding.GetBodyFieldStructName (camel : String → String) (b : binding) :
    Except String String :=
  match b.Body with
  | some body =>
    if body.FieldPath.length ≠ 0 then .ok (camel body.FieldPath.String)
    else .error "no body field found"
  | none => .error "no body field found"

/-- `binding.HasQueryParam`. -/
def binding.HasQueryParam (b : binding) : Bool :=
  if (match b.Body with
      | some body => decide (body.FieldPath.length = 0)
      | none => false) then
    false
  else
    let fields : StringSet :=
      b.Method.RequestType.Fields.foldl (fun m f => m.set f.Name) []
    let fields : StringSet :=
      match b.Body with
      | some body => fields.delete body.FieldPath.String
      | none => fields
    let fields : StringSet :=
      b.PathParams.foldl (fun m p => m.delete p.FieldPath.String) fields
    decide (fields.length > 0)

/-- Sequences `binding.QueryParamFilter` collects before building the filter. -/
def binding.filterSeqs (b : binding) : List (List String) :=
  let seqs : List (List String) :=
    match b.Body with
    | some body => [Split body.FieldPath.String "."]
    | none => []
  b.PathParams.foldl (fun seqs p => seqs ++ [Split p.FieldPath.String "."]) seqs

/-- `binding.QueryParamFilter`. -/
def binding.QueryParamFilter (b : binding) : queryParamFilter :=
  ⟨NewDoubleArray b.filterSeqs⟩

/-- `binding.hasEnumPathParam`, the loop over the path parameters with its
early return. -/
def hasEnumPathParamLoop (repeated : Bool) : List Parameter → Bool
  | [] => false
  | p :: rest =>
    if p.IsEnum && (p.IsRepeated == repeated) then true
    else hasEnumPathParamLoop repeated rest

/-- `binding.hasEnumPathParam`. -/
def binding.hasEnumPathParam (b : binding) (repeated : Bool) : Bool :=
  hasEnumPathParamLoop repeated b.PathParams

/-- `binding.HasEnumPathParam`. -/
def binding.HasEnumPathParam (b : binding) : Bool := b.hasEnumPathParam false

/-- `binding.HasRepeatedEnumPathParam`. -/
def binding.HasRepeatedEnumPathParam (b : binding) : Bool := b.hasEnumPathParam true

/-- `binding.LookupEnum`. -/
def binding.LookupEnum (b : binding) (p : Parameter) : Option Enum :=
  b.Registry.LookupEnum p.Target.TypeName

/-- Loop of `binding.FieldMaskField`: `cur` is the variable `fieldMaskField`;
the result is `none` on the early `return ""`, otherwise the final variable. -/
def fieldMaskLoop : List Field → Option Field → Option (Option Field)
  | [], cur => some cur
  | f :: rest, cur =>
    if f.TypeName = ".google.protobuf.FieldMask" then
      match cur with
      | some _ => none
      | none => fieldMaskLoop rest (some f)
    else fieldMaskLoop rest cur

/-- `binding.FieldMaskField`; `camel` is `casing.Camel`. -/
def binding.FieldMaskField (camel : String → String) (b : binding) : String :=
  match fieldMaskLoop b.Method.RequestType.Fields none with
  | none => ""
  | some (some f) => camel f.Name
  | some none => ""

end gengateway

namespace gengateway

/-! ## Template decisions and file assembly (`template.go`) -/

/-- Guard of the field-mask derivation step in "client-rpc-request-func" and
"local-client-rpc-request-func": inside `{{if .Body}}`, the block
`{{if and $AllowPatchFeature (eq (.HTTPMethod) "PATCH") (.FieldMaskField)
(not (eq "*" .GetBodyFieldPath))}}`.  A string argument of `and` counts as true
when it is non-empty. -/
def binding.emitsFieldMaskFromRequestBody (camel : String → String) (b : binding) : Bool :=
  b.Body.isSome &&
    (b.AllowPatchFeature && (b.HTTPMethod == "PATCH") &&
      (b.FieldMaskField camel != "") && !("*" == b.GetBodyFieldPath))

/-- Guard of the query-string step of "client-rpc-request-func" and
"local-client-rpc-request-func": the block `{{if .HasQueryParam}}` around
`req.ParseForm()` and `runtime.PopulateQueryParameters`, and likewise around the
declaration of the `filter_...` variable. -/
def binding.emitsPopulateQueryParameters (b : binding) : Bool :=
  b.HasQueryParam

/-- Struct `param` of `template.go`: the file plus the generation options. -/
structure param extends File where
  Imports : List GoPackage
  UseRequestContext : Bool
  RegisterFuncSuffix : String
  AllowPatchFeature : Bool
  OmitPackageDoc : Bool

/-- Struct `trailerParams` of `template.go`. -/
structure trailerParams where
  Services : List Service
  UseRequestContext : Bool
  RegisterFuncSuffix : String

/-- What the generator takes from outside the two source files: `casing.Camel`,
the execution of each of the five top-level templates (text, or the message of
the error `Execute` returns), and `format.Source`. -/
structure Env where
  camel : String → String
  headerTemplate : param → Except String String
  handlerTemplate : binding → Except String String
  localHandlerTemplate : binding → Except String String
  localTrailerTemplate : trailerParams → Except String String
  trailerTemplate : trailerParams → Except String String
  formatSource : String → Except String String

/-- Innermost loop of `applyTemplate`, `for _, b := range meth.Bindings`.
The state is the registry, the buffer `w` and `methodWithBindingsSeen`; the last
component is the error the function returns with, if any. -/
def applyTemplateBindings (E : Env) (allowPatch : Bool) (svc : Service) (meth : Method) :
    List Binding → Registry → String → Bool → Registry × String × Bool × Option Err
  | [], reg, w, seen => (reg, w, seen, none)
  | b :: rest, reg, w, seen =>
    match reg.CheckDuplicateAnnotation b.HTTPMethod b.PathTmpl.Template svc with
    | (reg1, some err) => (reg1, w, seen, some err)
    | (reg1, none) =>
      let wb : binding :=
        { toBinding := b, Method := meth, Registry := reg1, AllowPatchFeature := allowPatch }
      match E.handlerTemplate wb with
      | .error msg => (reg1, w, true, some (Err.templateError msg))
      | .ok s1 =>
        match E.localHandlerTemplate wb with
        | .error msg => (reg1, w ++ s1, true, some (Err.templateError msg))
        | .ok s2 => applyTemplateBindings E allowPatch svc meth rest reg1 (w ++ s1 ++ s2) true

/-- Assignment `meth.Name = &methName` with `methName := casing.Camel(*meth.Name)`. -/
def camelMethod (camel : String → String) (meth : Method) : Method :=
  { meth with Name := camel meth.Name }

/-- Loop `for _, meth := range svc.Methods` of `applyTemplate`. -/
def applyTemplateMethods (E : Env) (allowPatch : Bool) (svc : Service) :
    List Method → Registry → String → Bool → Registry × String × Bool × Option Err
  | [], reg, w, seen => (reg, w, seen, none)
  | meth :: rest, reg, w, seen =>
    let meth1 := camelMethod E.camel meth
    match applyTemplateBindings E allowPatch svc meth1 meth1.Bindings reg w seen with
    | (reg1, w1, seen1, some err) => (reg1, w1, seen1, some err)
    | (reg1, w1, seen1, none) => applyTemplateMethods E allowPatch svc rest reg1 w1 seen1

/-- Loop `for _, svc := range p.Services` of `applyTemplate`; the list is
`targetServices`.  A service enters it with the names the loop has rewritten. -/
def applyTemplateServices (E : Env) (allowPatch : Bool) :
    List Service → Registry → String → List Service →
      Registry × String × List Service × Option Err
  | [], reg, w, targetServices => (reg, w, targetServices, none)
  | svc :: rest, reg, w, targetServices =>
    let svc1 : Service := { svc with Name := E.camel svc.Name }
    match applyTemplateMethods E allowPatch svc1 svc1.Methods reg w false with
    | (reg1, w1, _, some err) => (reg1, w1, targetServices, some err)
    | (reg1, w1, methodWithBindingsSeen, none) =>
      let svc2 : Service := { svc1 with Methods := svc1.Methods.map (camelMethod E.camel) }
      applyTemplateServices E allowPatch rest reg1 w1
        (if methodWithBindingsSeen then targetServices ++ [svc2] else targetServices)

/-- `applyTemplate`.  The result is the registry after the call and the Go pair
`(string, error)`.  The loop over `p.Messages` rewrites message names through
`casing.Camel`; it touches nothing the control flow reads, and the names the
templates print are left to the template parameters of `Env`. -/
def applyTemplate (E : Env) (p : param) (reg : Registry) : Registry × String × Option Err :=
  match E.headerTemplate p with
  | .error msg => (reg, "", some (Err.templateError msg))
  | .ok header =>
    match applyTemplateServices E p.AllowPatchFeature p.Services reg header [] with
    | (reg1, _, _, some err) => (reg1, "", some err)
    | (reg1, w, targetServices, none) =>
      if targetServices.length = 0 then
        (reg1, "", some Err.errNoTargetService)
      else
        let tp : trailerParams :=
          { Services := targetServices
            UseRequestContext := p.UseRequestContext
            RegisterFuncSuffix := p.RegisterFuncSuffix }
        match E.localTrailerTemplate tp with
        | .error msg => (reg1, "", some (Err.templateError msg))
        | .ok s1 =>
          match E.trailerTemplate tp with
          | .error msg => (reg1, "", some (Err.templateError msg))
          | .ok s2 => (reg1, w ++ s1 ++ s2, none)

/-! ## Generator (`generator.go`) -/

/-- Struct `generator`; its registry pointer is the threaded `Registry`. -/
structure generator where
  baseImports : List GoPackage
  useRequestContext : Bool
  registerFuncSuffix : String
  allowPatchFeature : Bool
  standalone : Bool

/-- Inner loop of `addEnumPathParamImports`, over the path parameters of one
binding; the state is `pkgSeen` and `imports`. -/
def addEnumPathParamImportsParams (reg : Registry) (file : File) :
    List Parameter → StringSet → List GoPackage → StringSet × List GoPackage
  | [], pkgSeen, imports => (pkgSeen, imports)
  | p :: rest, pkgSeen, imports =>
    match reg.LookupEnum p.Target.TypeName with
    | none => addEnumPathParamImportsParams reg file rest pkgSeen imports
    | some e =>
      let pkg := e.GoPkg
      if pkg = file.GoPkg ∨ pkg.Path ∈ pkgSeen then
        addEnumPathParamImportsParams reg file rest pkgSeen imports
      else
        addEnumPathParamImportsParams reg file rest (pkgSeen.set pkg.Path) (imports ++ [pkg])

/-- Outer loop of `addEnumPathParamImports`, over the bindings of the method. -/
def addEnumPathParamImportsBindings (reg : Registry) (file : File) :
    List Binding → StringSet → List GoPackage → StringSet × List GoPackage
  | [], pkgSeen, imports => (pkgSeen, imports)
  | b :: rest, pkgSeen, imports =>
    match addEnumPathParamImportsParams reg file b.PathParams pkgSeen imports with
    | (pkgSeen1, imports1) => addEnumPathParamImportsBindings reg file rest pkgSeen1 imports1

/-- `generator.addEnumPathParamImports`: the new `pkgSeen` and the returned
imports. -/
def addEnumPathParamImports (reg : Registry) (file : File) (m : Method)
    (pkgSeen : StringSet) : StringSet × List GoPackage :=
  addEnumPathParamImportsBindings reg file m.Bindings pkgSeen []

/-- Loop `for _, m := range svc.Methods` of `generator.generate`. -/
def generateMethods (reg : Registry) (file : File) :
    List Method → StringSet → List GoPackage → StringSet × List GoPackage
  | [], pkgSeen, imports => (pkgSeen, imports)
  | m :: rest, pkgSeen, imports =>
    match addEnumPathParamImports reg file m pkgSeen with
    | (pkgSeen1, enumImports) =>
      let imports1 := imports ++ enumImports
      let pkg := m.RequestType.GoPkg
      if m.Bindings.length = 0 ∨ pkg = file.GoPkg ∨ pkg.Path ∈ pkgSeen1 then
        generateMethods reg file rest pkgSeen1 imports1
      else
        generateMethods reg file rest (pkgSeen1.set pkg.Path) (imports1 ++ [pkg])

/-- Loop `for _, svc := range file.Services` of `generator.generate`. -/
def generateServices (reg : Registry) (file : File) :
    List Service → StringSet → List GoPackage → StringSet × List GoPackage
  | [], pkgSeen, imports => (pkgSeen, imports)
  | svc :: rest, pkgSeen, imports =>
    match generateMethods reg file svc.Methods pkgSeen imports with
    | (pkgSeen1, imports1) => generateServices reg file rest pkgSeen1 imports1

/-- Import list `generator.generate` hands to the templates. -/
def generateImports (g : generator) (reg : Registry) (file : File) : List GoPackage :=
  let pkgSeen : StringSet := g.baseImports.foldl (fun s pkg => s.set pkg.Path) []
  let imports : List GoPackage := g.baseImports.foldl (fun l pkg => l ++ [pkg]) []
  let imports := if g.standalone then imports ++ [file.GoPkg] else imports
  (generateServices reg file file.Services pkgSeen imports).2

/-- `generator.generate`, with a registry present (`g.reg != nil`). -/
def generate (E : Env) (g : generator) (reg : Registry) (file : File) :
    Registry × String × Option Err :=
  let params : param :=
    { toFile := file
      Imports := generateImports g reg file
      UseRequestContext := g.useRequestContext
      RegisterFuncSuffix := g.registerFuncSuffix
      AllowPatchFeature := g.allowPatchFeature
      OmitPackageDoc := reg.GetOmitPackageDoc }
  applyTemplate E params reg

/-- Response file (`descriptor.ResponseFile`): package, name and content. -/
structure ResponseFile where
  GoPkg : GoPackage
  Name : String
  Content : String
  deriving DecidableEq, Repr

/-- Loop `for _, file := range targets` of `generator.Generate`; `files` is the
slice built so far.  The result is the registry at exit and the Go pair
`([]*ResponseFile, error)`, a nil slice being the empty list. -/
def GenerateLoop (E : Env) (g : generator) :
    List File → Registry → List ResponseFile → Registry × List ResponseFile × Option Err
  | [], reg, files => (reg, files, none)
  | file :: rest, reg, files =>
    match generate E g reg file with
    | (reg1, code, err) =>
      if err = some Err.errNoTargetService then
        GenerateLoop E g rest reg1 files
      else
        match err with
        | some e => (reg1, [], some e)
        | none =>
          match E.formatSource code with
          | .error msg => (reg1, [], some (Err.formatError msg))
          | .ok formatted =>
            GenerateLoop E g rest reg1
              (files ++ [{ GoPkg := file.GoPkg
                           Name := file.GeneratedFilenamePrefix ++ ".pb.gw.go"
                           Content := formatted }])

/-- `generator.Generate`. -/
def Generate (E : Env) (g : generator) (reg : Registry) (targets : List File) :
    Registry × List ResponseFile × Option Err :=
  GenerateLoop E g targets reg []

end gengateway

namespace gengateway

/-! ## Vocabulary of the statements -/

/-- Entry the duplicate check files for a binding of the service with identity
`ptr`. -/
def annotationKey (ptr : Nat) (b : Binding) : annotationIdentifier :=
  ⟨b.HTTPMethod, b.PathTmpl.Template, ptr⟩

/-- All bindings of a list of methods, in processing order. -/
def methodsBindings : List Method → List Binding
  | [] => []
  | m :: rest => m.Bindings ++ methodsBindings rest

/-- Two bindings differ in verb or in path template. -/
def Binding.differs (a b : Binding) : Prop :=
  a.HTTPMethod ≠ b.HTTPMethod ∨ a.PathTmpl.Template ≠ b.PathTmpl.Template

/-- Some method of the service has at least one binding. -/
def Service.hasBinding (svc : Service) : Bool :=
  svc.Methods.any (fun m => !m.Bindings.isEmpty)

/-- The service as `applyTemplate` leaves it: its name and its methods' names
passed through `casing.Camel`. -/
def camelService (camel : String → String) (svc : Service) : Service :=
  { svc with Name := camel svc.Name, Methods := svc.Methods.map (camelMethod camel) }

end gengateway

namespace gengateway

/-- The entries `keys` can be filed one after the other into a table holding
`table`: they are pairwise distinct and none of them is in the table. -/
def Fresh (keys table : List annotationIdentifier) : Prop :=
  keys.Nodup ∧ ∀ k ∈ keys, k ∉ table

end gengateway

namespace gengateway

/-! ## Sample inputs -/

/-- Package of the sample file. -/
def exPkg : GoPackage := ⟨"example.com/greeter", "greeter", ""⟩

/-- Sample request message with the single field `name`. -/
def exHelloRequest : Message :=
  ⟨"HelloRequest", [⟨"name", "", false, false⟩], exPkg⟩

/-- Sample response message. -/
def exHelloReply : Message :=
  ⟨"HelloReply", [⟨"message", "", false, false⟩], exPkg⟩

/-- Sample binding `GET /v1/hello/{name}` without body. -/
def exGetHello : Binding :=
  { Index := 0, HTTPMethod := "GET", PathTmpl := ⟨"/v1/hello/{name}"⟩,
    PathParams := [⟨["name"], ⟨"name", "", false, false⟩⟩],
    Body := none, ResponseBody := none }

/-- Sample binding `POST /v1/hello` taking the whole message as body. -/
def exPostHello : Binding :=
  { Index := 1, HTTPMethod := "POST", PathTmpl := ⟨"/v1/hello"⟩,
    PathParams := [], Body := some ⟨[]⟩, ResponseBody := none }

/-- Sample unary method with the given bindings. -/
def exSayHello (bs : List Binding) : Method :=
  { Name := "say_hello", RequestType := exHelloRequest, ResponseType := exHelloReply,
    ClientStreaming := false, ServerStreaming := false, Bindings := bs }

/-- Sample service with a single method carrying the given bindings. -/
def exGreeter (bs : List Binding) : Service :=
  { Ptr := 1, Name := "greeter", Methods := [exSayHello bs] }

/-- Sample file with the given services. -/
def exFile (name : String) (svcs : List Service) : File :=
  { Name := name, GoPkg := exPkg, GeneratedFilenamePrefix := name,
    Messages := [exHelloRequest, exHelloReply], Services := svcs }

/-- Registry with nothing filed. -/
def exRegistry : Registry :=
  { annotationMap := [], pkgAliases := [], enums := [], omitPackageDoc := false }

/-- Environment in which every template yields a short text and formatting
leaves the text as it is. -/
def exEnv : Env :=
  { camel := fun s => s
    headerTemplate := fun _ => .ok "H"
    handlerTemplate := fun _ => .ok "r"
    localHandlerTemplate := fun _ => .ok "l"
    localTrailerTemplate := fun _ => .ok "L"
    trailerTemplate := fun _ => .ok "T"
    formatSource := fun s => .ok s }

/-- Generator without base imports. -/
def exGenerator : generator :=
  { baseImports := [], useRequestContext := false, registerFuncSuffix := "Handler",
    allowPatchFeature := true, standalone := false }

/-- Parameters of `applyTemplate` for a sample file. -/
def exParam (svcs : List Service) : param :=
  { toFile := exFile "greeter" svcs, Imports := [], UseRequestContext := false,
    RegisterFuncSuffix := "Handler", AllowPatchFeature := true, OmitPackageDoc := false }

end gengateway

namespace gengateway

/-- What `generator.generate` yields for each target in turn (file, text,
error), the targets being generated one after the other on the registry the
earlier ones leave behind. -/
def generateOutcomes (E : Env) (g : generator) :
    List File → Registry → List (File × String × Option Err)
  | [], _ => []
  | file :: rest, reg =>
    match generate E g reg file with
    | (reg1, code, err) => (file, code, err) :: generateOutcomes E g rest reg1

/-- Response file built from a target that generated without error and whose
text formats; none for any other outcome. -/
def responseFileOf (E : Env) (o : File × String × Option Err) : Option ResponseFile :=
  match o.2.2 with
  | some _ => none
  | none =>
    match E.formatSource o.2.1 with
    | .error _ => none
    | .ok formatted =>
      some { GoPkg := o.1.GoPkg
             Name := o.1.GeneratedFilenamePrefix ++ ".pb.gw.go"
             Content := formatted }

/-- Sample target without any binding. -/
def exFileNoBinding : File := exFile "a" [exGreeter []]

/-- Sample target with one bound method. -/
def exFileBound : File := exFile "b" [{ exGreeter [exGetHello] with Ptr := 2 }]

/-- Sample target whose service carries the same binding twice. -/
def exFileDuplicate : File := exFile "c" [{ exGreeter [exGetHello, exGetHello] with Ptr := 3 }]

/-- Another sample target with one bound method. -/
def exFileBound2 : File := exFile "d" [{ exGreeter [exPostHello] with Ptr := 4 }]

end gengateway

namespace gengateway

/-- Sample request message of an update method: the resource and a field mask. -/
def exUpdateBookRequest : Message :=
  ⟨"UpdateBookRequest",
    [⟨"book", ".example.Book", false, false⟩,
     ⟨"update_mask", ".google.protobuf.FieldMask", false, false⟩], exPkg⟩

/-- Sample binding `PATCH /v1/{book.name}` with body `book`. -/
def exPatchBook : Binding :=
  { Index := 0, HTTPMethod := "PATCH", PathTmpl := ⟨"/v1/{book.name=shelves/*/books/*}"⟩,
    PathParams := [⟨["book", "name"], ⟨"name", "", false, false⟩⟩],
    Body := some ⟨["book"]⟩, ResponseBody := none }

/-- Sample unary update method. -/
def exUpdateBook : Method :=
  { Name := "update_book", RequestType := exUpdateBookRequest, ResponseType := exHelloReply,
    ClientStreaming := false, ServerStreaming := false, Bindings := [exPatchBook] }

/-- The update binding as the templates receive it, with the given patch switch. -/
def exPatchBookBinding (allowPatch : Bool) : binding :=
  { toBinding := exPatchBook, Method := exUpdateBook, Registry := exRegistry,
    AllowPatchFeature := allowPatch }

/-- The binding `GET /v1/hello/{name}` as the templates receive it. -/
def exGetHelloBinding : binding :=
  { toBinding := exGetHello, Method := exSayHello [exGetHello], Registry := exRegistry,
    AllowPatchFeature := true }

end gengateway

namespace gengateway

/-! ## Template decisions on the call shape (`template.go`) -/

/-- The three request functions `handlerTemplate` chooses between. -/
inductive HandlerFunc where
  | bidiStreamingRequestFunc
  | clientStreamingRequestFunc
  | clientRPCRequestFunc
  deriving DecidableEq, Repr

/-- Body of `handlerTemplate`: `{{if and .Method.GetClientStreaming
.Method.GetServerStreaming}}` "bidi-streaming-request-func", `{{else if
.Method.GetClientStreaming}}` "client-streaming-request-func", `{{else}}`
"client-rpc-request-func". -/
def binding.handlerTemplate (b : binding) : HandlerFunc :=
  if b.Method.ClientStreaming && b.Method.ServerStreaming then
    HandlerFunc.bidiStreamingRequestFunc
  else if b.Method.ClientStreaming then
    HandlerFunc.clientStreamingRequestFunc
  else
    HandlerFunc.clientRPCRequestFunc

/-- Body of `localHandlerTemplate`: three empty branches for the streaming
shapes, `{{else}}` "local-client-rpc-request-func".  True when the local
request function is emitted. -/
def binding.localHandlerTemplate (b : binding) : Bool :=
  if b.Method.ClientStreaming && b.Method.ServerStreaming then false
  else if b.Method.ClientStreaming then false
  else if b.Method.ServerStreaming then false
  else true

/-- Template "local-request-func-signature": the `func local_request_...` line
is printed in the `{{else}}` branch of `{{if .Method.GetServerStreaming}}`. -/
def binding.localRequestFuncSignature (b : binding) : Bool :=
  if b.Method.ServerStreaming then false else true

/-- What `Register...Server` wires for a binding. -/
inductive LocalRegistration where
  | unimplemented
  | callsLocalRequest
  deriving DecidableEq, Repr

/-- Branch of `localTrailerTemplate` for the bindings of a method: `{{if or
$m.GetClientStreaming $m.GetServerStreaming}}` the responder with
`codes.Unimplemented`, `{{else}}` the handler calling `local_request_...`. -/
def localRegistration (m : Method) : LocalRegistration :=
  if m.ClientStreaming || m.ServerStreaming then LocalRegistration.unimplemented
  else LocalRegistration.callsLocalRequest

/-- First result of a request function: a stream handle
(`..._{{.Method.GetName}}Client`) or a single `proto.Message`. -/
inductive ResultKind where
  | streamHandle
  | message
  deriving DecidableEq, Repr

/-- Template "request-func-signature": the declared first result, chosen by
`{{if .Method.GetServerStreaming}}`. -/
def binding.requestFuncSignature (b : binding) : ResultKind :=
  if b.Method.ServerStreaming then ResultKind.streamHandle else ResultKind.message

/-- What the body of the chosen request function returns on success: the
bidirectional one `return stream, metadata, nil`; the other two `stream` under
`{{if .Method.GetServerStreaming}}` and `msg` otherwise. -/
def binding.requestFuncReturns (b : binding) : ResultKind :=
  match b.handlerTemplate with
  | HandlerFunc.bidiStreamingRequestFunc => ResultKind.streamHandle
  | HandlerFunc.clientStreamingRequestFunc =>
    if b.Method.ServerStreaming then ResultKind.streamHandle else ResultKind.message
  | HandlerFunc.clientRPCRequestFunc =>
    if b.Method.ServerStreaming then ResultKind.streamHandle else ResultKind.message

/-- The two forwarders of the runtime. -/
inductive Forwarder where
  | ForwardResponseStream
  | ForwardResponseMessage
  deriving DecidableEq, Repr

/-- Binding `forward_... =` of `trailerTemplate`: `{{if $m.GetServerStreaming}}
runtime.ForwardResponseStream{{else}}runtime.ForwardResponseMessage{{end}}`. -/
def forwardBinding (m : Method) : Forwarder :=
  if m.ServerStreaming then Forwarder.ForwardResponseStream
  else Forwarder.ForwardResponseMessage

/-- What `Register...Client` passes to `forward_...`: under
`{{if $m.GetServerStreaming}}` a closure calling `resp.Recv()`, which needs a
stream handle, otherwise `resp` itself (wrapped when a ResponseBody is set). -/
def registerClientForwards (m : Method) : ResultKind :=
  if m.ServerStreaming then ResultKind.streamHandle else ResultKind.message

/-- Sample method with the given streaming flags and one binding. -/
def exStreamMethod (clientStreaming serverStreaming : Bool) : Method :=
  { exSayHello [exPostHello] with
    ClientStreaming := clientStreaming, ServerStreaming := serverStreaming }

/-- The binding of the sample streaming method as the templates receive it. -/
def exStreamBinding (clientStreaming serverStreaming : Bool) : binding :=
  { toBinding := exPostHello, Method := exStreamMethod clientStreaming serverStreaming,
    Registry := exRegistry, AllowPatchFeature := true }

end gengateway

namespace gengateway

/-! ## Vocabulary for the import list of `generate` -/

/-- Packages the inner loop of `addEnumPathParamImports` considers for the path
parameters of one binding: the package of each enum the registry resolves. -/
def paramCandidates (reg : Registry) : List Parameter → List GoPackage
  | [] => []
  | p :: rest =>
    match reg.LookupEnum p.Target.TypeName with
    | none => paramCandidates reg rest
    | some e => e.GoPkg :: paramCandidates reg rest

/-- Packages `addEnumPathParamImports` considers for a list of bindings. -/
def bindingsCandidates (reg : Registry) : List Binding → List GoPackage
  | [] => []
  | b :: rest => paramCandidates reg b.PathParams ++ bindingsCandidates reg rest

/-- Packages `generate` considers for one method: those of its enum path
parameters, then that of its request type if the method has a binding. -/
def methodCandidates (reg : Registry) (m : Method) : List GoPackage :=
  bindingsCandidates reg m.Bindings ++
    (if m.Bindings.length = 0 then [] else [m.RequestType.GoPkg])

/-- Packages `generate` considers for a list of methods, in order. -/
def methodsCandidates (reg : Registry) : List Method → List GoPackage
  | [] => []
  | m :: rest => methodCandidates reg m ++ methodsCandidates reg rest

/-- Packages `generate` considers for a list of services, in order. -/
def servicesCandidates (reg : Registry) : List Service → List GoPackage
  | [] => []
  | svc :: rest => methodsCandidates reg svc.Methods ++ servicesCandidates reg rest

/-- The test-and-record step common to `generate` and `addEnumPathParamImports`,
run over a list of candidate packages: a candidate equal to the file's package
or with a path already in `pkgSeen` is passed over, any other is recorded in
`pkgSeen` and imported.  The result is the final `pkgSeen` and the packages
imported, in order. -/
def newImports (file : File) : List GoPackage → StringSet → StringSet × List GoPackage
  | [], pkgSeen => (pkgSeen, [])
  | c :: rest, pkgSeen =>
    if c = file.GoPkg ∨ c.Path ∈ pkgSeen then newImports file rest pkgSeen
    else
      ((newImports file rest (pkgSeen.set c.Path)).1,
        c :: (newImports file rest (pkgSeen.set c.Path)).2)

/-- A package `generate` derives from the methods of the file comes from the
request type of a method with at least one binding, or from a path parameter
whose type name the registry resolves to an enum. -/
def importOrigin (reg : Registry) (file : File) (q : GoPackage) : Prop :=
  (∃ svc ∈ file.Services, ∃ m ∈ svc.Methods, m.Bindings ≠ [] ∧ m.RequestType.GoPkg = q) ∨
  (∃ svc ∈ file.Services, ∃ m ∈ svc.Methods, ∃ b ∈ m.Bindings, ∃ p ∈ b.PathParams,
    ∃ e, reg.LookupEnum p.Target.TypeName = some e ∧ e.GoPkg = q)

/-- Package of another module. -/
def exOtherPkg : GoPackage := ⟨"example.com/other", "other", ""⟩

/-- Package of a module holding an enum. -/
def exEnumPkg : GoPackage := ⟨"example.com/kinds", "kinds", ""⟩

/-- Sample file whose bound method takes its request from the file's own module
and its response from another module. -/
def exFileForeignReply : File :=
  exFile "e"
    [{ exGreeter [] with
        Methods := [{ exSayHello [exGetHello] with
          ResponseType := ⟨"OtherReply", [], exOtherPkg⟩ }] }]

/-- Guard `{{if $b.ResponseBody}}` of `trailerTemplate` around the type
`response_...`, whose method `XXX_ResponseBody` names the response type
(`$m.ResponseType.GoType`): the only place where the generated text names the
response type of a method. -/
def responseBodyWrapper (b : Binding) : Bool :=
  b.ResponseBody.isSome

/-- Sample file as `exFileForeignReply`, the binding declaring the response
body `message`. -/
def exFileForeignReplyBody : File :=
  exFile "e"
    [{ exGreeter [] with
        Methods := [{ exSayHello [{ exGetHello with ResponseBody := some ⟨["message"]⟩ }] with
          ResponseType := ⟨"OtherReply", [⟨"message", "", false, false⟩], exOtherPkg⟩ }] }]

/-- Registry resolving the enum `.example.Kind` of the module of enums. -/
def exEnumRegistry : Registry :=
  { exRegistry with enums := [(".example.Kind", ⟨exEnumPkg⟩)] }

/-- Sample file whose bound method takes its request from another module and
has an enum-typed path parameter. -/
def exFileForeignRequest : File :=
  exFile "f"
    [{ exGreeter [] with
        Methods := [{ exSayHello
            [{ exGetHello with
                PathParams := [⟨["kind"], ⟨"kind", ".example.Kind", true, false⟩⟩] }] with
          RequestType := ⟨"OtherRequest", [⟨"kind", ".example.Kind", true, false⟩],
            exOtherPkg⟩ }] }]

end gengateway

namespace gengateway

/-! ## `queryParamFilter.String` -/

/-- The fields of `utilities.DoubleArray` that `queryParamFilter.String` reads:
the array representation it prints, where `DoubleArray` above models what the
structure answers.  `Encoding` is the Go map `map[string]int`, given as its
entries in the order in which `range` yields them. -/
structure DoubleArrayFields where
  Encoding : List (String × Int)
  Base : List Int
  Check : List Int

/-- The verbs of package `fmt` that `queryParamFilter.String` uses: `%q` on a
string, `%d` on an int, `%#v` on a slice of ints. -/
structure Fmt where
  q : String → String
  d : Int → String
  goSyntax : List Int → String

/-- Text `fmt.Sprintf("%q: %d", str, enc)`. -/
def encodingEntry (F : Fmt) (str : String) (enc : Int) : String :=
  F.q str ++ ": " ++ F.d enc

/-- Loop `for str, enc := range f.Encoding { encodings[enc] = ... }`; an index
outside the slice makes the program panic, which is the result `none`. -/
def fillEncodings (F : Fmt) : List (String × Int) → List String → Option (List String)
  | [], encodings => some encodings
  | (str, enc) :: rest, encodings =>
    if 0 ≤ enc ∧ enc < encodings.length then
      fillEncodings F rest (encodings.set enc.toNat (encodingEntry F str enc))
    else none

/-- Text of the final `fmt.Sprintf` of `queryParamFilter.String`, given the
entries (joined with `", "` as `strings.Join` does) and the two slices. -/
def doubleArrayText (F : Fmt) (encodings : List String) (base check : List Int) : String :=
  "&utilities.DoubleArray\x7bEncoding: map[string]int\x7b" ++ ", ".intercalate encodings ++
    "\x7d, Base: " ++ F.goSyntax base ++ ", Check: " ++ F.goSyntax check ++ "\x7d"

/-- `queryParamFilter.String`; `none` when the loop panics. -/
def queryParamFilterString (F : Fmt) (f : DoubleArrayFields) : Option String :=
  match fillEncodings F f.Encoding (List.replicate f.Encoding.length "") with
  | none => none
  | some encodings => some (doubleArrayText F encodings f.Base f.Check)

/-- Formatting for the samples: quotes around the string, decimal digits (the
sample ints are not negative), `[]int{...}`. -/
def exFmt : Fmt :=
  { q := fun s => "\"" ++ s ++ "\""
    d := fun i => Nat.repr i.toNat
    goSyntax := fun l => "[]int\x7b" ++ ", ".intercalate (l.map (fun i => Nat.repr i.toNat))
      ++ "\x7d" }

/-- Sample array whose map yields its entries in the order `name`, `book`. -/
def exDoubleArrayFields : DoubleArrayFields :=
  { Encoding := [("name", 1), ("book", 0)], Base := [1, 1, 0], Check := [0, 1, 2] }

end gengateway

namespace gengateway

/-! ## `New` and the reservation of aliases (`generator.go`) -/

/-- Go `path.Base`: the last element of a slash-separated path, trailing
slashes removed; `"."` for the empty path and `"/"` for a path of slashes. -/
def pathBase (path : String) : String :=
  if path.data = [] then "."
  else
    let stripped := path.data.reverse.dropWhile (fun c => c = '/')
    let last := (stripped.takeWhile (fun c => c ≠ '/')).reverse
    if last = [] then "/" else String.mk last

/-- Text `fmt.Sprintf("%s_%d", name, i)` for the counter `i` of the retry loop. -/
def suffixedAlias (name : String) (i : Nat) : String :=
  name ++ "_" ++ Nat.repr i

/-- Modelled from the spec: `Registry.ReserveGoPackageAlias` is not part of the
two source files.  The registry maps each reserved alias to its module path; an
alias is never reused for a different module path, so reserving an alias held by
another path is an error, and reserving a free alias records it. -/
def Registry.ReserveGoPackageAlias (r : Registry) (aliasName pkgpath : String) :
    Registry × Option String :=
  match r.pkgAliases.find? (fun e => e.1 == aliasName) with
  | some e =>
    if e.2 = pkgpath then (r, none)
    else (r, some ("package name " ++ aliasName ++ " is already taken"))
  | none => ({ r with pkgAliases := (aliasName, pkgpath) :: r.pkgAliases }, none)

/-- The registry accepts the alias for the module path. -/
def Registry.accepts (r : Registry) (aliasName pkgpath : String) : Prop :=
  (r.ReserveGoPackageAlias aliasName pkgpath).2 = none

/-- Retry loop `for i := 0; ; i++` of `New`, from counter `i`.  The Go loop has
no bound; `fuel` bounds the number of iterations, and the result is `none` when
it is used up before an alias is accepted. -/
def reserveSuffixedAlias (name pkgpath : String) :
    Nat → Nat → Registry → Option (Registry × String)
  | 0, _, _ => none
  | fuel + 1, i, reg =>
    match reg.ReserveGoPackageAlias (suffixedAlias name i) pkgpath with
    | (reg1, some _) => reserveSuffixedAlias name pkgpath fuel (i + 1) reg1
    | (reg1, none) => some (reg1, suffixedAlias name i)

/-- Body of the first loop of `New` for one module path: the package with its
name, and with an explicit alias only when the name itself was refused. -/
def NewBaseImport (fuel : Nat) (reg : Registry) (pkgpath : String) :
    Option (Registry × GoPackage) :=
  let pkg : GoPackage := { Path := pkgpath, Name := pathBase pkgpath, Alias := "" }
  match reg.ReserveGoPackageAlias pkg.Name pkg.Path with
  | (reg1, none) => some (reg1, pkg)
  | (reg1, some _) =>
    match reserveSuffixedAlias pkg.Name pkg.Path fuel 0 reg1 with
    | none => none
    | some (reg2, aliasName) => some (reg2, { pkg with Alias := aliasName })

/-- First loop of `New`, over the module paths. -/
def NewBaseImports (fuel : Nat) :
    List String → Registry → List GoPackage → Option (Registry × List GoPackage)
  | [], reg, imports => some (reg, imports)
  | pkgpath :: rest, reg, imports =>
    match NewBaseImport fuel reg pkgpath with
    | none => none
    | some (reg1, pkg) => NewBaseImports fuel rest reg1 (imports ++ [pkg])

/-- Second loop of `New`, over the packages with a fixed alias; a refused alias
makes the program panic, which is the error result. -/
def NewFixedAliases :
    List GoPackage → Registry → List GoPackage → Except String (Registry × List GoPackage)
  | [], reg, imports => .ok (reg, imports)
  | pkg :: rest, reg, imports =>
    let pkg1 : GoPackage := { pkg with Name := pathBase pkg.Path }
    match reg.ReserveGoPackageAlias pkg1.Alias pkg1.Path with
    | (_, some _) =>
      .error ("duplicated alias [" ++ pkg1.Alias ++ "] for package [" ++ pkg1.Path ++ "]")
    | (reg1, none) => NewFixedAliases rest reg1 (imports ++ [pkg1])

/-- The module paths of the first loop of `New`. -/
def supportPackages : List String :=
  [ "context",
    "io",
    "net/http",
    "unsafe",
    "github.com/dubbogo/triple/pkg/common/constant",
    "github.com/dubbogo/triple/pkg/triple",
    "github.com/zgs225/dubbo-go-gateway/runtime",
    "github.com/zgs225/dubbo-go-gateway/utilities",
    "google.golang.org/protobuf/proto",
    "github.com/dubbogo/grpc-go",
    "github.com/dubbogo/grpc-go/codes",
    "github.com/dubbogo/grpc-go/grpclog",
    "github.com/dubbogo/grpc-go/metadata",
    "github.com/dubbogo/grpc-go/status" ]

/-- The packages of the second loop of `New`, with their fixed aliases. -/
def fixedAliasPackages : List GoPackage :=
  [ { Path := "github.com/dubbogo/grpc-go", Name := "", Alias := "grpc_go" },
    { Path := "github.com/dubbogo/grpc-go/metadata", Name := "", Alias := "grpc_go_md" } ]

/-- `New`: `none` when `fuel` does not suffice for a retry loop, an error when
the program panics, otherwise the registry after the reservations and the
generator. -/
def New (fuel : Nat) (reg : Registry) (useRequestContext : Bool) (registerFuncSuffix : String)
    (allowPatchFeature standalone : Bool) : Option (Except String (Registry × generator)) :=
  match NewBaseImports fuel supportPackages reg [] with
  | none => none
  | some (reg1, imports) =>
    match NewFixedAliases fixedAliasPackages reg1 imports with
    | .error msg => some (.error msg)
    | .ok (reg2, imports2) =>
      some (.ok (reg2,
        { baseImports := imports2
          useRequestContext := useRequestContext
          registerFuncSuffix := registerFuncSuffix
          allowPatchFeature := allowPatchFeature
          standalone := standalone }))

/-- Number read from a list of decimal digit characters, continuing from `acc`. -/
def digitsValue (l : List Char) (acc : Nat) : Nat :=
  l.foldl (fun a c => a * 10 + (c.toNat - 48)) acc

/-- Registry in which `runtime` and `runtime_0` are held by other modules. -/
def exTakenRegistry : Registry :=
  { exRegistry with
    pkgAliases := [("runtime_0", "example.com/a/runtime"), ("runtime", "example.com/b/runtime")] }

/-- The module path `pkgpath` has been given the first alias the registry `reg`
accepts for it: the package has that path and the base name of the path; when
`reg` accepts the base name the explicit alias is empty and `reg'` is `reg`
after reserving the base name; otherwise the explicit alias is `base_i` for the
least counter `i` whose `base_i` the registry accepts, and `reg'` is `reg` after
reserving `base_i`. -/
def firstAccepted (reg : Registry) (pkgpath : String) (reg' : Registry) (pkg : GoPackage) :
    Prop :=
  pkg.Path = pkgpath ∧ pkg.Name = pathBase pkgpath ∧
  ((reg.accepts (pathBase pkgpath) pkgpath ∧ pkg.Alias = "" ∧
      reg' = (reg.ReserveGoPackageAlias (pathBase pkgpath) pkgpath).1) ∨
    (¬ reg.accepts (pathBase pkgpath) pkgpath ∧
      ∃ i, pkg.Alias = suffixedAlias (pathBase pkgpath) i ∧
        reg.accepts (suffixedAlias (pathBase pkgpath) i) pkgpath ∧
        (∀ j, j < i → ¬ reg.accepts (suffixedAlias (pathBase pkgpath) j) pkgpath) ∧
        reg' = (reg.ReserveGoPackageAlias (suffixedAlias (pathBase pkgpath) i) pkgpath).1))

/-- The module paths have been given their aliases one after the other, each
the first alias accepted by the registry as the earlier ones left it: `pkgs`
are the resulting packages in order and `reg'` the registry at the end. -/
def reservedInTurn : List String → Registry → Registry → List GoPackage → Prop
  | [], reg, reg', pkgs => reg' = reg ∧ pkgs = []
  | pkgpath :: rest, reg, reg', pkgs =>
    ∃ reg1 pkg tail, pkgs = pkg :: tail ∧ firstAccepted reg pkgpath reg1 pkg ∧
      reservedInTurn rest reg1 reg' tail

/-- Assignment `pkg.Name = path.Base(pkg.Path)` of the second loop of `New`. -/
def withBaseName (pkg : GoPackage) : GoPackage :=
  { pkg with Name := pathBase pkg.Path }

/-- Explicit aliases of the base imports `New` returns; empty when `New` does
not return a generator. -/
def NewAliases (r : Option (Except String (Registry × generator))) : List String :=
  match r with
  | some (.ok (_, g)) => g.baseImports.map GoPackage.Alias
  | _ => []

end gengateway

namespace gengateway

/-! ## Query filter: membership and order independence -/

theorem DoubleArray.isExcluded_empty (q : List String) :
    DoubleArray.IsExcluded DoubleArray.empty q = false := by
  cases q <;> simp [DoubleArray.empty, DoubleArray.IsExcluded, DoubleArray.child?]

theorem DoubleArray.child?_updateChild (f : DoubleArray → DoubleArray) (seg key : String)
    (ch : List (String × DoubleArray)) :
    DoubleArray.child? key (DoubleArray.updateChild f seg ch) =
      if key = seg then some (f ((DoubleArray.child? seg ch).getD DoubleArray.empty))
      else DoubleArray.child? key ch := by
  induction ch with
  | nil =>
    by_cases h : key = seg
    · simp [DoubleArray.updateChild, DoubleArray.child?, h]
    · have h' : ¬ seg = key := fun e => h e.symm
      simp [DoubleArray.updateChild, DoubleArray.child?, h, h']
  | cons kt rest ih =>
    obtain ⟨k, t⟩ := kt
    by_cases hk : k = seg
    · subst hk
      by_cases h : key = k
      · subst h
        simp [DoubleArray.updateChild, DoubleArray.child?]
      · have h' : ¬ k = key := fun e => h e.symm
        simp [DoubleArray.updateChild, DoubleArray.child?, h, h']
    · by_cases h : key = seg
      · subst h
        simp [DoubleArray.updateChild, DoubleArray.child?, hk, ih]
      · by_cases hkk : k = key
        · simp [DoubleArray.updateChild, DoubleArray.child?, hk, h, hkk]
        · simp [DoubleArray.updateChild, DoubleArray.child?, hk, h, hkk, ih]

theorem DoubleArray.isExcluded_insert (s : List String) :
    ∀ (t : DoubleArray) (q : List String),
      DoubleArray.IsExcluded (DoubleArray.insert s t) q =
        (decide (q = s) || DoubleArray.IsExcluded t q) := by
  induction s with
  | nil =>
    intro t q
    cases t with
    | node term ch =>
      cases q with
      | nil => simp [DoubleArray.insert, DoubleArray.IsExcluded]
      | cons a q => simp [DoubleArray.insert, DoubleArray.IsExcluded]
  | cons seg s ih =>
    intro t q
    cases t with
    | node term ch =>
      cases q with
      | nil => simp [DoubleArray.insert, DoubleArray.IsExcluded]
      | cons a q =>
        simp only [DoubleArray.insert, DoubleArray.IsExcluded,
          DoubleArray.child?_updateChild]
        by_cases h : a = seg
        · subst h
          simp only [if_true, ih]
          cases hc : DoubleArray.child? a ch with
          | none => simp [DoubleArray.isExcluded_empty]
          | some c => simp
        · simp [h]

theorem isExcluded_foldl_insert (seqs : List (List String)) :
    ∀ (t : DoubleArray) (q : List String),
      DoubleArray.IsExcluded (seqs.foldl (fun da s => DoubleArray.insert s da) t) q =
        (DoubleArray.IsExcluded t q || decide (q ∈ seqs)) := by
  induction seqs with
  | nil => intro t q; simp
  | cons s seqs ih =>
    intro t q
    simp only [List.foldl_cons, ih, DoubleArray.isExcluded_insert]
    by_cases h1 : q = s <;> by_cases h2 : q ∈ seqs <;>
      cases DoubleArray.IsExcluded t q <;> simp [h1, h2]

theorem isExcluded_NewDoubleArray (seqs : List (List String)) (q : List String) :
    DoubleArray.IsExcluded (NewDoubleArray seqs) q = true ↔ q ∈ seqs := by
  simp [NewDoubleArray, isExcluded_foldl_insert, DoubleArray.isExcluded_empty]

theorem foldl_append_singleton {α β : Type} (f : α → β) (l : List α) :
    ∀ acc : List β, l.foldl (fun acc a => acc ++ [f a]) acc = acc ++ l.map f := by
  induction l with
  | nil => intro acc; simp
  | cons a l ih => intro acc; simp [ih]

theorem mem_filterSeqs (b : binding) (q : List String) :
    q ∈ b.filterSeqs ↔
      (∃ body, b.Body = some body ∧ q = Split body.FieldPath.String ".") ∨
      (∃ p ∈ b.PathParams, q = Split p.FieldPath.String ".") := by
  unfold binding.filterSeqs
  rw [foldl_append_singleton (fun p : Parameter => Split p.FieldPath.String ".")]
  cases hb : b.Body with
  | none =>
    simp only [List.nil_append, List.mem_map]
    constructor
    · rintro ⟨p, hp, rfl⟩; exact Or.inr ⟨p, hp, rfl⟩
    · rintro (⟨body, h, _⟩ | ⟨p, hp, rfl⟩)
      · cases h
      · exact ⟨p, hp, rfl⟩
  | some body =>
    simp only [List.mem_append, List.mem_singleton, List.mem_map]
    constructor
    · rintro (rfl | ⟨p, hp, rfl⟩)
      · exact Or.inl ⟨body, rfl, rfl⟩
      · exact Or.inr ⟨p, hp, rfl⟩
    · rintro (⟨body', h, rfl⟩ | ⟨p, hp, rfl⟩)
      · cases h; exact Or.inl rfl
      · exact Or.inr ⟨p, hp, rfl⟩

/-- C1: the filter `binding.QueryParamFilter` builds excludes a field-path
exactly when it is the body field-path (Body present) or the field-path of a
path parameter, and any structure built from the same paths, inserted in any
order and with any repetition, answers every query as that filter does. -/
theorem C1_QueryParamFilter_excludes_exactly (b : binding) (q : List String) :
    (DoubleArray.IsExcluded b.QueryParamFilter.DoubleArray q = true ↔
      ((∃ body, b.Body = some body ∧ q = Split body.FieldPath.String ".") ∨
       (∃ p ∈ b.PathParams, q = Split p.FieldPath.String "."))) ∧
    (∀ seqs : List (List String), (∀ s, s ∈ seqs ↔ s ∈ b.filterSeqs) →
      DoubleArray.IsExcluded (NewDoubleArray seqs) q =
        DoubleArray.IsExcluded b.QueryParamFilter.DoubleArray q) := by
  refine ⟨?_, ?_⟩
  · simp only [binding.QueryParamFilter, isExcluded_NewDoubleArray]
    exact mem_filterSeqs b q
  · intro seqs h
    have h1 := isExcluded_NewDoubleArray seqs q
    have h2 := isExcluded_NewDoubleArray b.filterSeqs q
    simp only [binding.QueryParamFilter]
    cases e1 : DoubleArray.IsExcluded (NewDoubleArray seqs) q <;>
      cases e2 : DoubleArray.IsExcluded (NewDoubleArray b.filterSeqs) q <;>
      simp_all

end gengateway

namespace gengateway

/-! ## Duplicate-binding guard and file gating -/

theorem methodsBindings_camel (camel : String → String) (ms : List Method) :
    methodsBindings (ms.map (camelMethod camel)) = methodsBindings ms := by
  induction ms with
  | nil => rfl
  | cons m ms ih => simp [methodsBindings, camelMethod, ih]

theorem applyTemplateBindings_ok (E : Env) (ap : Bool) (svc : Service) (meth : Method) :
    ∀ (bs : List Binding) (reg : Registry) (w : String) (seen : Bool),
      (applyTemplateBindings E ap svc meth bs reg w seen).2.2.2 = none →
        (applyTemplateBindings E ap svc meth bs reg w seen).1 =
            { reg with annotationMap :=
                (bs.map (annotationKey svc.Ptr)).reverse ++ reg.annotationMap } ∧
          (applyTemplateBindings E ap svc meth bs reg w seen).2.2.1 = (seen || !bs.isEmpty) ∧
          (bs.map (annotationKey svc.Ptr)).Nodup ∧
          ∀ b ∈ bs, annotationKey svc.Ptr b ∉ reg.annotationMap := by
  intro bs
  induction bs with
  | nil => intro reg w seen _; simp [applyTemplateBindings]
  | cons b rest ih =>
    intro reg w seen h
    by_cases hmem : annotationKey svc.Ptr b ∈ reg.annotationMap
    · simp only [annotationKey] at hmem
      simp [applyTemplateBindings, Registry.CheckDuplicateAnnotation, hmem] at h
    · have hmem' := hmem
      simp only [annotationKey] at hmem'
      simp only [applyTemplateBindings, Registry.CheckDuplicateAnnotation, hmem', if_false] at h ⊢
      cases h1 : E.handlerTemplate
          { toBinding := b, Method := meth,
            Registry := { reg with annotationMap :=
              ⟨b.HTTPMethod, b.PathTmpl.Template, svc.Ptr⟩ :: reg.annotationMap },
            AllowPatchFeature := ap } with
      | error msg => simp [h1] at h
      | ok s1 =>
        simp only [h1] at h ⊢
        cases h2 : E.localHandlerTemplate
            { toBinding := b, Method := meth,
              Registry := { reg with annotationMap :=
                ⟨b.HTTPMethod, b.PathTmpl.Template, svc.Ptr⟩ :: reg.annotationMap },
              AllowPatchFeature := ap } with
        | error msg => simp [h2] at h
        | ok s2 =>
          simp only [h2] at h ⊢
          obtain ⟨e1, e2, e3, e4⟩ := ih _ _ _ h
          refine ⟨?_, ?_, ?_, ?_⟩
          · rw [e1]; simp [annotationKey]
          · rw [e2]; simp
          · simp only [List.map_cons, List.nodup_cons]
            refine ⟨?_, e3⟩
            intro hin
            obtain ⟨b', hb', hk⟩ := List.mem_map.1 hin
            have := e4 b' hb'
            simp only [List.mem_cons, not_or] at this
            exact this.1 (by rw [hk]; rfl)
          · intro b' hb'
            rcases List.mem_cons.1 hb' with rfl | hb'
            · exact hmem
            · have := e4 b' hb'
              simp only [List.mem_cons, not_or] at this
              exact this.2

theorem applyTemplateBindings_err (E : Env) (ap : Bool) (svc : Service) (meth : Method) :
    ∀ (bs : List Binding) (reg : Registry) (w : String) (seen : Bool) (e : Err),
      (applyTemplateBindings E ap svc meth bs reg w seen).2.2.2 = some e →
        e ≠ Err.errNoTargetService ∧ bs ≠ [] ∧
          (∀ m t, e = Err.duplicateAnnotation m t →
            ¬ ((bs.map (annotationKey svc.Ptr)).Nodup ∧
                ∀ b ∈ bs, annotationKey svc.Ptr b ∉ reg.annotationMap)) := by
  intro bs
  induction bs with
  | nil => intro reg w seen e h; simp [applyTemplateBindings] at h
  | cons b rest ih =>
    intro reg w seen e h
    by_cases hmem : annotationKey svc.Ptr b ∈ reg.annotationMap
    · have hmem' := hmem
      simp only [annotationKey] at hmem'
      simp [applyTemplateBindings, Registry.CheckDuplicateAnnotation, hmem'] at h
      subst h
      refine ⟨by simp, by simp, ?_⟩
      rintro m t - ⟨-, hd⟩
      exact hd b (List.mem_cons_self _ _) hmem
    · have hmem' := hmem
      simp only [annotationKey] at hmem'
      simp only [applyTemplateBindings, Registry.CheckDuplicateAnnotation, hmem', if_false] at h
      cases h1 : E.handlerTemplate
          { toBinding := b, Method := meth,
            Registry := { reg with annotationMap :=
              ⟨b.HTTPMethod, b.PathTmpl.Template, svc.Ptr⟩ :: reg.annotationMap },
            AllowPatchFeature := ap } with
      | error msg =>
        simp [h1] at h
        subst h
        exact ⟨by simp, by simp, by simp⟩
      | ok s1 =>
        simp only [h1] at h
        cases h2 : E.localHandlerTemplate
            { toBinding := b, Method := meth,
              Registry := { reg with annotationMap :=
                ⟨b.HTTPMethod, b.PathTmpl.Template, svc.Ptr⟩ :: reg.annotationMap },
              AllowPatchFeature := ap } with
        | error msg =>
          simp [h2] at h
          subst h
          exact ⟨by simp, by simp, by simp⟩
        | ok s2 =>
          simp only [h2] at h
          obtain ⟨e1, -, e3⟩ := ih _ _ _ _ h
          refine ⟨e1, by simp, ?_⟩
          rintro m t he ⟨hnd, hd⟩
          apply e3 m t he
          simp only [List.map_cons, List.nodup_cons] at hnd
          refine ⟨hnd.2, ?_⟩
          intro b' hb'
          simp only [List.mem_cons, not_or]
          refine ⟨?_, hd b' (List.mem_cons_of_mem _ hb')⟩
          intro hk
          apply hnd.1
          have : annotationKey svc.Ptr b' ∈ rest.map (annotationKey svc.Ptr) :=
            List.mem_map.2 ⟨b', hb', rfl⟩
          rw [hk] at this
          exact this

theorem Fresh_append (A B table : List annotationIdentifier) :
    Fresh (A ++ B) table ↔ Fresh A table ∧ Fresh B (A.reverse ++ table) := by
  unfold Fresh
  simp only [List.nodup_append, List.mem_append, List.mem_reverse, List.disjoint_left]
  constructor
  · rintro ⟨⟨hA, hB, hAB⟩, hd⟩
    refine ⟨⟨hA, fun k hk => hd k (Or.inl hk)⟩, hB, ?_⟩
    rintro k hk (h | h)
    · exact hAB h hk
    · exact hd k (Or.inr hk) h
  · rintro ⟨⟨hA, hdA⟩, hB, hdB⟩
    refine ⟨⟨hA, hB, fun {k} hkA hkB => hdB k hkB (Or.inl hkA)⟩, ?_⟩
    rintro k (hk | hk)
    · exact hdA k hk
    · exact fun h => hdB k hk (Or.inr h)

theorem applyTemplateMethods_ok (E : Env) (ap : Bool) (svc : Service) :
    ∀ (ms : List Method) (reg : Registry) (w : String) (seen : Bool),
      (applyTemplateMethods E ap svc ms reg w seen).2.2.2 = none →
        (applyTemplateMethods E ap svc ms reg w seen).1 =
            { reg with annotationMap :=
                ((methodsBindings ms).map (annotationKey svc.Ptr)).reverse ++
                  reg.annotationMap } ∧
          (applyTemplateMethods E ap svc ms reg w seen).2.2.1 =
            (seen || !(methodsBindings ms).isEmpty) ∧
          Fresh ((methodsBindings ms).map (annotationKey svc.Ptr)) reg.annotationMap := by
  intro ms
  induction ms with
  | nil => intro reg w seen _; simp [applyTemplateMethods, methodsBindings, Fresh]
  | cons m rest ih =>
    intro reg w seen h
    simp only [applyTemplateMethods] at h ⊢
    have hb : (camelMethod E.camel m).Bindings = m.Bindings := rfl
    rw [hb] at h ⊢
    rcases hr : applyTemplateBindings E ap svc (camelMethod E.camel m) m.Bindings reg w seen
      with ⟨reg1, w1, seen1, err1⟩
    have hok := applyTemplateBindings_ok E ap svc (camelMethod E.camel m) m.Bindings reg w seen
    rw [hr] at h hok
    cases err1 with
    | some e => simp at h
    | none =>
      simp only at h hok ⊢
      obtain ⟨e1, e2, e3, e4⟩ := hok trivial
      obtain ⟨f1, f2, f3⟩ := ih reg1 w1 seen1 h
      refine ⟨?_, ?_, ?_⟩
      · rw [f1, e1]; simp [methodsBindings]
      · rw [f2, e2]; simp only [methodsBindings, Bool.or_assoc]
        generalize m.Bindings = l
        cases l <;> simp
      · simp only [methodsBindings, List.map_append]
        rw [Fresh_append]
        refine ⟨⟨e3, ?_⟩, ?_⟩
        · intro k hk
          obtain ⟨b, hb', rfl⟩ := List.mem_map.1 hk
          exact e4 b hb'
        · rw [e1] at f3; exact f3

theorem applyTemplateMethods_err (E : Env) (ap : Bool) (svc : Service) :
    ∀ (ms : List Method) (reg : Registry) (w : String) (seen : Bool) (e : Err),
      (applyTemplateMethods E ap svc ms reg w seen).2.2.2 = some e →
        e ≠ Err.errNoTargetService ∧ methodsBindings ms ≠ [] ∧
          (∀ m t, e = Err.duplicateAnnotation m t →
            ¬ Fresh ((methodsBindings ms).map (annotationKey svc.Ptr)) reg.annotationMap) := by
  intro ms
  induction ms with
  | nil => intro reg w seen e h; simp [applyTemplateMethods] at h
  | cons m rest ih =>
    intro reg w seen e h
    simp only [applyTemplateMethods] at h
    have hb : (camelMethod E.camel m).Bindings = m.Bindings := rfl
    rw [hb] at h
    rcases hr : applyTemplateBindings E ap svc (camelMethod E.camel m) m.Bindings reg w seen
      with ⟨reg1, w1, seen1, err1⟩
    have hok := applyTemplateBindings_ok E ap svc (camelMethod E.camel m) m.Bindings reg w seen
    have herr := applyTemplateBindings_err E ap svc (camelMethod E.camel m) m.Bindings reg w seen
    rw [hr] at h hok herr
    cases err1 with
    | some e' =>
      simp only [Option.some.injEq] at h
      subst h
      obtain ⟨g1, g2, g3⟩ := herr e' rfl
      refine ⟨g1, ?_, ?_⟩
      · simp [methodsBindings, g2]
      · intro mm t he hf
        simp only [methodsBindings, List.map_append] at hf
        rw [Fresh_append] at hf
        apply g3 mm t he
        refine ⟨hf.1.1, ?_⟩
        intro b hb'
        exact hf.1.2 _ (List.mem_map.2 ⟨b, hb', rfl⟩)
    | none =>
      simp only at h hok
      obtain ⟨e1, -, -, -⟩ := hok trivial
      obtain ⟨f1, f2, f3⟩ := ih reg1 w1 seen1 e h
      refine ⟨f1, ?_, ?_⟩
      · simp [methodsBindings, f2]
      · intro mm t he hf
        simp only [methodsBindings, List.map_append] at hf
        rw [Fresh_append] at hf
        apply f3 mm t he
        rw [e1]
        exact hf.2

theorem methodsBindings_isEmpty (ms : List Method) :
    (!(methodsBindings ms).isEmpty) = ms.any (fun m => !m.Bindings.isEmpty) := by
  induction ms with
  | nil => rfl
  | cons m ms ih =>
    simp only [methodsBindings, List.any_cons, ← ih]
    generalize m.Bindings = l
    cases l <;> simp

theorem methodsBindings_eq_nil (ms : List Method) :
    methodsBindings ms = [] ↔ ∀ m ∈ ms, m.Bindings = [] := by
  induction ms with
  | nil => simp [methodsBindings]
  | cons m ms ih => simp [methodsBindings, ih]

theorem nodup_keys_iff (ptr : Nat) (bs : List Binding) :
    (bs.map (annotationKey ptr)).Nodup ↔ bs.Pairwise Binding.differs := by
  unfold List.Nodup
  rw [List.pairwise_map]
  apply List.Pairwise.iff
  intro a b
  simp only [annotationKey, ne_eq, annotationIdentifier.mk.injEq, and_true, Binding.differs]
  tauto

theorem applyTemplateServices_ok (E : Env) (ap : Bool) :
    ∀ (svcs : List Service) (reg : Registry) (w : String) (ts : List Service),
      (applyTemplateServices E ap svcs reg w ts).2.2.2 = none →
        (applyTemplateServices E ap svcs reg w ts).2.2.1 =
            ts ++ (svcs.filter Service.hasBinding).map (camelService E.camel) ∧
          ∀ svc ∈ svcs, (methodsBindings svc.Methods).Pairwise Binding.differs := by
  intro svcs
  induction svcs with
  | nil => intro reg w ts _; simp [applyTemplateServices]
  | cons svc rest ih =>
    intro reg w ts h
    simp only [applyTemplateServices] at h ⊢
    rcases hr : applyTemplateMethods E ap { svc with Name := E.camel svc.Name } svc.Methods
        reg w false with ⟨reg1, w1, seen1, err1⟩
    have hok := applyTemplateMethods_ok E ap { svc with Name := E.camel svc.Name } svc.Methods
        reg w false
    rw [hr] at h hok
    cases err1 with
    | some e => simp at h
    | none =>
      simp only at h hok ⊢
      obtain ⟨-, e2, e3⟩ := hok trivial
      obtain ⟨f1, f2⟩ := ih _ _ _ h
      have hseen : seen1 = Service.hasBinding svc := by
        rw [e2, Service.hasBinding, ← methodsBindings_isEmpty]; simp
      refine ⟨?_, ?_⟩
      · rw [f1, hseen]
        by_cases hb : Service.hasBinding svc = true
        · simp [hb, List.filter_cons, camelService]
        · simp [hb, List.filter_cons]
      · intro s hs
        rcases List.mem_cons.1 hs with rfl | hs
        · exact (nodup_keys_iff _ _).1 e3.1
        · exact f2 s hs

theorem applyTemplateServices_err (E : Env) (ap : Bool) :
    ∀ (svcs : List Service) (reg : Registry) (w : String) (ts : List Service) (e : Err),
      (applyTemplateServices E ap svcs reg w ts).2.2.2 = some e →
        e ≠ Err.errNoTargetService ∧ (∃ svc ∈ svcs, methodsBindings svc.Methods ≠ []) ∧
          (∀ m t, e = Err.duplicateAnnotation m t →
            ¬ ((∀ svc ∈ svcs, (methodsBindings svc.Methods).Pairwise Binding.differs) ∧
               svcs.Pairwise (fun s t => s.Ptr ≠ t.Ptr) ∧
               ∀ svc ∈ svcs, ∀ a ∈ reg.annotationMap, a.service ≠ svc.Ptr)) := by
  intro svcs
  induction svcs with
  | nil => intro reg w ts e h; simp [applyTemplateServices] at h
  | cons svc rest ih =>
    intro reg w ts e h
    simp only [applyTemplateServices] at h
    rcases hr : applyTemplateMethods E ap { svc with Name := E.camel svc.Name } svc.Methods
        reg w false with ⟨reg1, w1, seen1, err1⟩
    have hok := applyTemplateMethods_ok E ap { svc with Name := E.camel svc.Name } svc.Methods
        reg w false
    have herr := applyTemplateMethods_err E ap { svc with Name := E.camel svc.Name } svc.Methods
        reg w false
    rw [hr] at h hok herr
    cases err1 with
    | some e' =>
      simp only [Option.some.injEq] at h
      subst h
      obtain ⟨g1, g2, g3⟩ := herr e' rfl
      refine ⟨g1, ⟨svc, List.mem_cons_self _ _, g2⟩, ?_⟩
      rintro m t he ⟨hp, -, hfresh⟩
      apply g3 m t he
      refine ⟨(nodup_keys_iff _ _).2 (hp svc (List.mem_cons_self _ _)), ?_⟩
      intro k hk hin
      obtain ⟨b, -, rfl⟩ := List.mem_map.1 hk
      exact hfresh svc (List.mem_cons_self _ _) _ hin rfl
    | none =>
      simp only at h hok
      obtain ⟨e1, -, -⟩ := hok trivial
      obtain ⟨f1, ⟨s, hs, f2⟩, f3⟩ := ih _ _ _ e h
      refine ⟨f1, ⟨s, List.mem_cons_of_mem _ hs, f2⟩, ?_⟩
      rintro m t he ⟨hp, hptr, hfresh⟩
      apply f3 m t he
      rw [List.pairwise_cons] at hptr
      refine ⟨fun s hs => hp s (List.mem_cons_of_mem _ hs), hptr.2, ?_⟩
      intro s hs a ha
      rw [e1] at ha
      simp only [List.mem_append, List.mem_reverse] at ha
      rcases ha with ha | ha
      · obtain ⟨b, -, rfl⟩ := List.mem_map.1 ha
        exact hptr.1 s hs
      · exact hfresh s (List.mem_cons_of_mem _ hs) a ha

end gengateway

namespace gengateway

theorem applyTemplate_error_text (E : Env) (p : param) (reg : Registry) :
    (applyTemplate E p reg).2.2 ≠ none → (applyTemplate E p reg).2.1 = "" := by
  unfold applyTemplate
  cases E.headerTemplate p with
  | error msg => simp
  | ok header =>
    simp only
    rcases applyTemplateServices E p.AllowPatchFeature p.Services reg header []
      with ⟨reg1, w1, ts, err1⟩
    cases err1 with
    | some e => simp
    | none =>
      simp only
      split
      · simp
      · cases E.localTrailerTemplate _ with
        | error msg => simp
        | ok s1 =>
          simp only
          cases E.trailerTemplate _ with
          | error msg => simp
          | ok s2 => simp

/-- C2: when some service of the file carries two bindings with the same
(HTTP verb, path template) pair, `applyTemplate` returns an error together with
empty text; and when every two bindings of each service differ in verb or in
path template (the services being distinct objects for which the registry has
filed no pair yet), no duplicate-annotation error is returned. -/
theorem C2_applyTemplate_duplicate_binding (E : Env) (p : param) (reg : Registry) :
    ((∃ svc ∈ p.Services, ¬ (methodsBindings svc.Methods).Pairwise Binding.differs) →
        (applyTemplate E p reg).2.1 = "" ∧ (applyTemplate E p reg).2.2 ≠ none) ∧
    ((∀ svc ∈ p.Services, (methodsBindings svc.Methods).Pairwise Binding.differs) →
      p.Services.Pairwise (fun s t => s.Ptr ≠ t.Ptr) →
      (∀ svc ∈ p.Services, ∀ a ∈ reg.annotationMap, a.service ≠ svc.Ptr) →
      ∀ m t, (applyTemplate E p reg).2.2 ≠ some (Err.duplicateAnnotation m t)) := by
  refine ⟨?_, ?_⟩
  · rintro ⟨svc, hsvc, hdup⟩
    have hne : (applyTemplate E p reg).2.2 ≠ none := by
      unfold applyTemplate
      cases E.headerTemplate p with
      | error msg => simp
      | ok header =>
        simp only
        have hok := applyTemplateServices_ok E p.AllowPatchFeature p.Services reg header []
        rcases hr : applyTemplateServices E p.AllowPatchFeature p.Services reg header []
          with ⟨reg1, w1, ts, err1⟩
        rw [hr] at hok
        cases err1 with
        | some e => simp
        | none => exact absurd ((hok rfl).2 svc hsvc) hdup
    exact ⟨applyTemplate_error_text E p reg hne, hne⟩
  · intro h1 h2 h3 m t
    unfold applyTemplate
    cases E.headerTemplate p with
    | error msg => simp
    | ok header =>
      simp only
      have herr := applyTemplateServices_err E p.AllowPatchFeature p.Services reg header []
      rcases hr : applyTemplateServices E p.AllowPatchFeature p.Services reg header []
        with ⟨reg1, w1, ts, err1⟩
      rw [hr] at herr
      cases err1 with
      | some e =>
        simp only [ne_eq, Option.some.injEq]
        intro he
        exact (herr e rfl).2.2 m t he ⟨h1, h2, h3⟩
      | none =>
        simp only
        split
        · simp
        · cases E.localTrailerTemplate _ with
          | error msg => simp
          | ok s1 =>
            simp only
            cases E.trailerTemplate _ with
            | error msg => simp
            | ok s2 => simp

/-- C2, at sample inputs: a service with the binding `GET /v1/hello/{name}`
twice is refused with empty text, and with the bindings `GET /v1/hello/{name}`
and `POST /v1/hello` no duplicate-annotation error arises. -/
theorem C2_applyTemplate_duplicate_binding_witness :
    ((applyTemplate exEnv (exParam [exGreeter [exGetHello, exGetHello]]) exRegistry).2.1 = "" ∧
      (applyTemplate exEnv (exParam [exGreeter [exGetHello, exGetHello]]) exRegistry).2.2
        ≠ none) ∧
    (∀ m t, (applyTemplate exEnv (exParam [exGreeter [exGetHello, exPostHello]])
        exRegistry).2.2 ≠ some (Err.duplicateAnnotation m t)) :=
  ⟨(C2_applyTemplate_duplicate_binding exEnv (exParam [exGreeter [exGetHello, exGetHello]])
      exRegistry).1
      ⟨exGreeter [exGetHello, exGetHello], List.mem_singleton.2 rfl, by
        simp [methodsBindings, exGreeter, exSayHello, Binding.differs]⟩,
   (C2_applyTemplate_duplicate_binding exEnv (exParam [exGreeter [exGetHello, exPostHello]])
      exRegistry).2
      (by
        intro svc hsvc
        rw [List.mem_singleton.1 hsvc]
        simp [methodsBindings, exGreeter, exSayHello, Binding.differs, exGetHello,
          exPostHello])
      (List.pairwise_singleton _ _)
      (by intro svc _ a ha; simp [exRegistry] at ha)⟩

theorem filter_hasBinding_eq_nil (svcs : List Service) :
    svcs.filter Service.hasBinding = [] ↔ ∀ svc ∈ svcs, ∀ m ∈ svc.Methods, m.Bindings = [] := by
  simp only [List.filter_eq_nil_iff, Service.hasBinding, List.any_eq_true, not_exists, not_and,
    Bool.not_eq_true', Bool.not_eq_false, List.isEmpty_iff, Bool.not_eq_true]

/-- C3: in a run of `applyTemplate` that ends neither in a template error nor in
a duplicate-annotation error, the result is `errNoTargetService` with empty text
if and only if every method of every service of the file has an empty `Bindings`
list; and whenever the loop over the services completes, `targetServices` holds
exactly the services having a method with at least one binding, so a method
without bindings never makes its service a target service. -/
theorem C3_applyTemplate_errNoTargetService (E : Env) (p : param) (reg : Registry)
    (hT : ∀ msg, (applyTemplate E p reg).2.2 ≠ some (Err.templateError msg))
    (hD : ∀ m t, (applyTemplate E p reg).2.2 ≠ some (Err.duplicateAnnotation m t)) :
    ((applyTemplate E p reg).2 = ("", some Err.errNoTargetService) ↔
        ∀ svc ∈ p.Services, ∀ m ∈ svc.Methods, m.Bindings = []) ∧
    (∀ (r : Registry) (w : String),
      (applyTemplateServices E p.AllowPatchFeature p.Services r w []).2.2.2 = none →
        (applyTemplateServices E p.AllowPatchFeature p.Services r w []).2.2.1 =
          (p.Services.filter Service.hasBinding).map (camelService E.camel)) := by
  have _ := hD
  refine ⟨?_, ?_⟩
  · unfold applyTemplate at hT ⊢
    cases hh : E.headerTemplate p with
    | error msg =>
      rw [hh] at hT
      exact absurd rfl (hT msg)
    | ok header =>
      simp only
      have hok := applyTemplateServices_ok E p.AllowPatchFeature p.Services reg header []
      have herr := applyTemplateServices_err E p.AllowPatchFeature p.Services reg header []
      rcases hr : applyTemplateServices E p.AllowPatchFeature p.Services reg header []
        with ⟨reg1, w1, ts, err1⟩
      rw [hr] at hok herr
      cases err1 with
      | some e =>
        obtain ⟨g1, ⟨svc, hsvc, g2⟩, -⟩ := herr e rfl
        simp only [Prod.mk.injEq, Option.some.injEq, true_and]
        constructor
        · intro he; exact absurd he g1
        · intro hall
          exact absurd ((methodsBindings_eq_nil _).2 (hall svc hsvc)) g2
      | none =>
        obtain ⟨e1, -⟩ := hok rfl
        simp only [List.nil_append] at e1
        simp only
        by_cases hts : ts.length = 0
        · simp only [hts, if_true, true_iff]
          rw [← filter_hasBinding_eq_nil]
          have : ts = [] := List.length_eq_zero.1 hts
          rw [this] at e1
          simpa using e1.symm
        · simp only [hts, if_false]
          have hnot : ¬ ∀ svc ∈ p.Services, ∀ m ∈ svc.Methods, m.Bindings = [] := by
            rw [← filter_hasBinding_eq_nil]
            intro hnil
            apply hts
            rw [e1, hnil]; rfl
          simp only [hnot, iff_false]
          cases E.localTrailerTemplate _ with
          | error msg => simp
          | ok s1 =>
            simp only
            cases E.trailerTemplate _ with
            | error msg => simp
            | ok s2 => simp
  · intro r w h
    have := (applyTemplateServices_ok E p.AllowPatchFeature p.Services r w [] h).1
    simpa using this

/-- C3, at a sample input: a file whose only method has no binding runs without
template or duplicate error and yields `errNoTargetService` with empty text. -/
theorem C3_applyTemplate_errNoTargetService_witness :
    (∀ msg, (applyTemplate exEnv (exParam [exGreeter []]) exRegistry).2.2
        ≠ some (Err.templateError msg)) ∧
    (∀ m t, (applyTemplate exEnv (exParam [exGreeter []]) exRegistry).2.2
        ≠ some (Err.duplicateAnnotation m t)) ∧
    (applyTemplate exEnv (exParam [exGreeter []]) exRegistry).2
        = ("", some Err.errNoTargetService) :=
  have h : applyTemplate exEnv (exParam [exGreeter []]) exRegistry
      = (exRegistry, "", some Err.errNoTargetService) := by decide
  have hT : ∀ msg, (applyTemplate exEnv (exParam [exGreeter []]) exRegistry).2.2
      ≠ some (Err.templateError msg) := by intro msg; rw [h]; simp
  have hD : ∀ m t, (applyTemplate exEnv (exParam [exGreeter []]) exRegistry).2.2
      ≠ some (Err.duplicateAnnotation m t) := by intro m t; rw [h]; simp
  ⟨hT, hD,
    (C3_applyTemplate_errNoTargetService exEnv (exParam [exGreeter []]) exRegistry hT hD).1.2
      (by
        intro svc hsvc m hm
        rw [List.mem_singleton.1 hsvc] at hm
        rw [List.mem_singleton.1 hm]
        rfl)⟩

/-! ## `Generate`: skipped and failing targets -/

theorem GenerateLoop_outcomes (E : Env) (g : generator) :
    ∀ (targets : List File) (reg : Registry) (files : List ResponseFile),
      (∀ o ∈ generateOutcomes E g targets reg,
        o.2.2 = some Err.errNoTargetService ∨
          (o.2.2 = none ∧ ∃ src, E.formatSource o.2.1 = .ok src)) →
      (GenerateLoop E g targets reg files).2 =
        (files ++ (generateOutcomes E g targets reg).filterMap (responseFileOf E), none) := by
  intro targets
  induction targets with
  | nil => intro reg files _; simp [GenerateLoop, generateOutcomes]
  | cons file rest ih =>
    intro reg files h
    rcases hr : generate E g reg file with ⟨reg1, code, err⟩
    simp only [GenerateLoop, generateOutcomes, hr, List.mem_cons, forall_eq_or_imp] at h ⊢
    obtain ⟨h0, hrest⟩ := h
    rcases h0 with h0 | ⟨h0, src, hsrc⟩
    · subst h0
      simp only [if_true, List.filterMap_cons, responseFileOf]
      exact ih reg1 files hrest
    · subst h0
      simp only [reduceCtorEq, if_false, hsrc, List.filterMap_cons, responseFileOf]
      rw [ih reg1 _ hrest]
      simp

theorem GenerateLoop_append (E : Env) (g : generator) (rest : List File) :
    ∀ (pre : List File) (reg reg1 : Registry) (files files1 : List ResponseFile),
      GenerateLoop E g pre reg files = (reg1, files1, none) →
        GenerateLoop E g (pre ++ rest) reg files = GenerateLoop E g rest reg1 files1 := by
  intro pre
  induction pre with
  | nil =>
    intro reg reg1 files files1 h
    simp only [GenerateLoop, Prod.mk.injEq] at h
    obtain ⟨rfl, rfl, -⟩ := h
    rfl
  | cons file pre ih =>
    intro reg reg1 files files1 h
    rcases hr : generate E g reg file with ⟨reg2, code, err⟩
    simp only [GenerateLoop, List.cons_append, hr] at h ⊢
    by_cases hskip : err = some Err.errNoTargetService
    · simp only [hskip, if_true] at h ⊢
      exact ih _ _ _ _ h
    · simp only [hskip, if_false] at h ⊢
      cases err with
      | some e => simp at h
      | none =>
        simp only at h ⊢
        cases hf : E.formatSource code with
        | error msg => simp [hf] at h
        | ok formatted =>
          simp only [hf] at h ⊢
          exact ih _ _ _ _ h

theorem responseFileOf_names (E : Env) :
    ∀ l : List (File × String × Option Err),
      (∀ o ∈ l, o.2.2 = some Err.errNoTargetService ∨
          (o.2.2 = none ∧ ∃ src, E.formatSource o.2.1 = .ok src)) →
      (l.filterMap (responseFileOf E)).map ResponseFile.Name =
        (l.filter (fun o => decide (o.2.2 ≠ some Err.errNoTargetService))).map
          (fun o => o.1.GeneratedFilenamePrefix ++ ".pb.gw.go") := by
  intro l
  induction l with
  | nil => intro _; rfl
  | cons o l ih =>
    intro h
    simp only [List.mem_cons, forall_eq_or_imp] at h
    obtain ⟨h0, hrest⟩ := h
    rcases h0 with h0 | ⟨h0, src, hsrc⟩
    · simp [List.filterMap_cons, responseFileOf, h0, List.filter_cons, ih hrest]
    · simp [List.filterMap_cons, responseFileOf, h0, hsrc, List.filter_cons, ih hrest]

/-- C4: a target whose generation yields `errNoTargetService` adds no response
file and no error, and the loop of `Generate` goes on with the remaining targets
on the registry that generation left; when every target either yields
`errNoTargetService` or generates and formats without error, `Generate` returns
no error and one response file for each target of the second kind, in input
order (named after the target's `GeneratedFilenamePrefix`). -/
theorem C4_Generate_skips_errNoTargetService (E : Env) (g : generator) :
    (∀ (file : File) (rest : List File) (reg : Registry) (files : List ResponseFile),
      (generate E g reg file).2.2 = some Err.errNoTargetService →
        GenerateLoop E g (file :: rest) reg files =
          GenerateLoop E g rest (generate E g reg file).1 files) ∧
    (∀ (reg : Registry) (targets : List File),
      (∀ o ∈ generateOutcomes E g targets reg,
        o.2.2 = some Err.errNoTargetService ∨
          (o.2.2 = none ∧ ∃ src, E.formatSource o.2.1 = .ok src)) →
      (Generate E g reg targets).2 =
          ((generateOutcomes E g targets reg).filterMap (responseFileOf E), none) ∧
        (Generate E g reg targets).2.1.map ResponseFile.Name =
          ((generateOutcomes E g targets reg).filter
              (fun o => decide (o.2.2 ≠ some Err.errNoTargetService))).map
            (fun o => o.1.GeneratedFilenamePrefix ++ ".pb.gw.go")) := by
  refine ⟨?_, ?_⟩
  · intro file rest reg files h
    rcases hr : generate E g reg file with ⟨reg1, code, err⟩
    rw [hr] at h
    simp only at h
    simp [GenerateLoop, hr, h]
  · intro reg targets h
    have h1 : (Generate E g reg targets).2 =
        ((generateOutcomes E g targets reg).filterMap (responseFileOf E), none) := by
      have := GenerateLoop_outcomes E g targets reg [] h
      simpa [Generate] using this
    refine ⟨h1, ?_⟩
    rw [h1]
    exact responseFileOf_names E _ h

/-- C4, at a sample input: of three targets the first has no binding; `Generate`
returns the response files of the second and the third, in that order. -/
theorem C4_Generate_skips_errNoTargetService_witness :
    (∀ o ∈ generateOutcomes exEnv exGenerator [exFileNoBinding, exFileBound, exFileBound2]
        exRegistry,
      o.2.2 = some Err.errNoTargetService ∨
        (o.2.2 = none ∧ ∃ src, exEnv.formatSource o.2.1 = .ok src)) ∧
    (Generate exEnv exGenerator exRegistry [exFileNoBinding, exFileBound, exFileBound2]).2 =
      ((generateOutcomes exEnv exGenerator [exFileNoBinding, exFileBound, exFileBound2]
          exRegistry).filterMap (responseFileOf exEnv), none) ∧
    (Generate exEnv exGenerator exRegistry
        [exFileNoBinding, exFileBound, exFileBound2]).2.1.map ResponseFile.Name =
      ["b.pb.gw.go", "d.pb.gw.go"] :=
  have h : ∀ o ∈ generateOutcomes exEnv exGenerator
      [exFileNoBinding, exFileBound, exFileBound2] exRegistry,
      o.2.2 = some Err.errNoTargetService ∨
        (o.2.2 = none ∧ ∃ src, exEnv.formatSource o.2.1 = .ok src) := by
    have e : generateOutcomes exEnv exGenerator [exFileNoBinding, exFileBound, exFileBound2]
        exRegistry =
        [(exFileNoBinding, "", some Err.errNoTargetService), (exFileBound, "HrlLT", none),
          (exFileBound2, "HrlLT", none)] := by decide
    rw [e]
    intro o ho
    simp only [List.mem_cons, List.mem_singleton, List.not_mem_nil, or_false] at ho
    rcases ho with rfl | rfl | rfl
    · exact Or.inl rfl
    · exact Or.inr ⟨rfl, "HrlLT", rfl⟩
    · exact Or.inr ⟨rfl, "HrlLT", rfl⟩
  ⟨h,
    ((C4_Generate_skips_errNoTargetService exEnv exGenerator).2 exRegistry
      [exFileNoBinding, exFileBound, exFileBound2] h).1,
    by decide⟩

/-- C5, as stated, fails: with a first target that generates, a second whose
service carries a binding twice and a third that would generate, `Generate`
returns the duplicate-annotation error and no response file at all, although
without the second target it returns two. -/
theorem C5_counterexample :
    (Generate exEnv exGenerator exRegistry [exFileBound, exFileDuplicate, exFileBound2]).2 =
        ([], some (Err.duplicateAnnotation "GET" "/v1/hello/{name}")) ∧
    ((Generate exEnv exGenerator exRegistry [exFileBound, exFileBound2]).2.1.map
        ResponseFile.Name, (Generate exEnv exGenerator exRegistry
          [exFileBound, exFileBound2]).2.2) = (["b.pb.gw.go", "d.pb.gw.go"], none) := by
  decide

/-- C5, amended: when the targets before a file have been processed without
error and the generation of that file fails with a duplicate-annotation error,
`Generate` returns that error and no response file, whatever targets follow;
the registry is left as that failing generation left it, the later targets
not being processed. -/
theorem C5_Generate_aborts_on_duplicate (E : Env) (g : generator) (reg reg1 : Registry)
    (pre rest : List File) (file : File) (files1 : List ResponseFile) (m t : String)
    (hpre : Generate E g reg pre = (reg1, files1, none))
    (hdup : (generate E g reg1 file).2.2 = some (Err.duplicateAnnotation m t)) :
    Generate E g reg (pre ++ file :: rest) =
      ((generate E g reg1 file).1, [], some (Err.duplicateAnnotation m t)) := by
  unfold Generate at hpre ⊢
  rw [GenerateLoop_append E g (file :: rest) pre reg reg1 [] files1 hpre]
  rcases hr : generate E g reg1 file with ⟨reg2, code, err⟩
  rw [hr] at hdup
  simp only at hdup
  subst hdup
  simp [GenerateLoop, hr]

/-- C5 amended, at a sample input: the first target generates, the second
carries a binding twice, the third is never reached. -/
theorem C5_Generate_aborts_on_duplicate_witness :
    Generate exEnv exGenerator exRegistry [exFileBound] =
        ((generate exEnv exGenerator exRegistry exFileBound).1,
          [⟨exPkg, "b.pb.gw.go", "HrlLT"⟩], none) ∧
    (generate exEnv exGenerator (generate exEnv exGenerator exRegistry exFileBound).1
        exFileDuplicate).2.2 = some (Err.duplicateAnnotation "GET" "/v1/hello/{name}") ∧
    Generate exEnv exGenerator exRegistry ([exFileBound] ++ exFileDuplicate :: [exFileBound2]) =
      ((generate exEnv exGenerator (generate exEnv exGenerator exRegistry exFileBound).1
          exFileDuplicate).1, [], some (Err.duplicateAnnotation "GET" "/v1/hello/{name}")) :=
  ⟨by decide, by decide,
    C5_Generate_aborts_on_duplicate exEnv exGenerator exRegistry
      (generate exEnv exGenerator exRegistry exFileBound).1 [exFileBound] [exFileBound2]
      exFileDuplicate [⟨exPkg, "b.pb.gw.go", "HrlLT"⟩] "GET" "/v1/hello/{name}"
      (by decide) (by decide)⟩

end gengateway

namespace gengateway

/-! ## Binding classifier -/

theorem mem_foldl_set (fs : List Field) :
    ∀ (acc : StringSet) (k : String),
      k ∈ fs.foldl (fun m f => StringSet.set m f.Name) acc ↔ k ∈ acc ∨ ∃ f ∈ fs, f.Name = k := by
  induction fs with
  | nil => intro acc k; simp
  | cons f fs ih =>
    intro acc k
    simp only [List.foldl_cons, ih, List.mem_cons, exists_eq_or_imp]
    unfold StringSet.set
    by_cases h : f.Name ∈ acc
    · simp only [h, if_true]
      constructor
      · rintro (h1 | h1)
        · exact Or.inl h1
        · exact Or.inr (Or.inr h1)
      · rintro (h1 | h1 | h1)
        · exact Or.inl h1
        · exact Or.inl (h1 ▸ h)
        · exact Or.inr h1
    · simp only [h, if_false, List.mem_append, List.mem_singleton]
      constructor
      · rintro ((h1 | h1) | h1)
        · exact Or.inl h1
        · exact Or.inr (Or.inl h1.symm)
        · exact Or.inr (Or.inr h1)
      · rintro (h1 | h1 | h1)
        · exact Or.inl (Or.inl h1)
        · exact Or.inl (Or.inr h1.symm)
        · exact Or.inr h1

theorem mem_delete (m : StringSet) (k x : String) :
    x ∈ StringSet.delete m k ↔ x ∈ m ∧ x ≠ k := by
  simp [StringSet.delete, List.mem_filter]

theorem mem_foldl_delete (ps : List Parameter) :
    ∀ (m : StringSet) (x : String),
      x ∈ ps.foldl (fun m p => StringSet.delete m p.FieldPath.String) m ↔
        x ∈ m ∧ ∀ p ∈ ps, x ≠ p.FieldPath.String := by
  induction ps with
  | nil => intro m x; simp
  | cons p ps ih =>
    intro m x
    simp only [List.foldl_cons, ih, mem_delete, List.mem_cons, forall_eq_or_imp]
    tauto

theorem length_pos_iff_exists_mem (l : List String) :
    decide (l.length > 0) = true ↔ ∃ x, x ∈ l := by
  cases l with
  | nil => simp
  | cons a l => simp

theorem HasQueryParam_of_not_wildcard (b : binding)
    (h : b.Body = none ∨ ∃ body, b.Body = some body ∧ body.FieldPath ≠ []) :
    b.HasQueryParam = true ↔
      ∃ f ∈ b.Method.RequestType.Fields,
        (∀ body, b.Body = some body → f.Name ≠ body.FieldPath.String) ∧
        ∀ p ∈ b.PathParams, f.Name ≠ p.FieldPath.String := by
  unfold binding.HasQueryParam
  rcases h with h | ⟨body, h, hne⟩
  · simp only [h, Bool.false_eq_true, if_false, length_pos_iff_exists_mem, mem_foldl_delete,
      mem_foldl_set, List.not_mem_nil, false_or]
    constructor
    · rintro ⟨x, ⟨f, hf, rfl⟩, hp⟩
      exact ⟨f, hf, (by intro body hb; cases hb), hp⟩
    · rintro ⟨f, hf, -, hp⟩
      exact ⟨f.Name, ⟨f, hf, rfl⟩, hp⟩
  · have hlen : ¬ body.FieldPath.length = 0 := fun e => hne (List.length_eq_zero.1 e)
    simp only [h, hlen, decide_False, Bool.false_eq_true, if_false, length_pos_iff_exists_mem,
      mem_foldl_delete, mem_delete, mem_foldl_set, List.not_mem_nil, false_or]
    constructor
    · rintro ⟨x, ⟨⟨f, hf, rfl⟩, hb⟩, hp⟩
      refine ⟨f, hf, ?_, hp⟩
      intro body' hb'
      cases hb'
      exact hb
    · rintro ⟨f, hf, hb, hp⟩
      exact ⟨f.Name, ⟨⟨f, hf, rfl⟩, hb body rfl⟩, hp⟩

theorem HasQueryParam_of_wildcard (b : binding) (body : Body)
    (h : b.Body = some body) (hw : body.FieldPath = []) : b.HasQueryParam = false := by
  unfold binding.HasQueryParam
  simp [h, hw]

theorem fieldMaskLoop_eq (fs : List Field) :
    ∀ cur : Option Field,
      fieldMaskLoop fs cur =
        match cur.toList ++
            fs.filter (fun f => decide (f.TypeName = ".google.protobuf.FieldMask")) with
        | [] => some none
        | [f] => some (some f)
        | _ :: _ :: _ => none := by
  induction fs with
  | nil => intro cur; cases cur <;> simp [fieldMaskLoop]
  | cons f fs ih =>
    intro cur
    by_cases h : f.TypeName = ".google.protobuf.FieldMask"
    · cases cur with
      | some c => simp [fieldMaskLoop, h, List.filter_cons]
      | none => simp [fieldMaskLoop, h, List.filter_cons, ih]
    · simp [fieldMaskLoop, h, List.filter_cons, ih]

theorem hasEnumPathParamLoop_iff (repeated : Bool) (ps : List Parameter) :
    hasEnumPathParamLoop repeated ps = true ↔
      ∃ p ∈ ps, p.IsEnum = true ∧ p.IsRepeated = repeated := by
  induction ps with
  | nil => simp [hasEnumPathParamLoop]
  | cons p ps ih =>
    simp only [hasEnumPathParamLoop, List.mem_cons, exists_eq_or_imp]
    by_cases h : p.IsEnum = true ∧ p.IsRepeated = repeated
    · simp [h.1, h.2]
    · have h' : (p.IsEnum && (p.IsRepeated == repeated)) = false := by
        simpa [Bool.and_eq_false_iff] using h
      simp only [h', Bool.false_eq_true, if_false, ih, h, false_or]

/-- C1, at a sample input: for the binding `PATCH /v1/{book.name}` with body
`book`, a structure built from the same two paths in the other order and with a
repetition answers the query for `book.name` as the filter does, namely that
it is excluded. -/
theorem C1_QueryParamFilter_excludes_exactly_witness :
    (∀ s, s ∈ [["book", "name"], ["book"], ["book"]] ↔
        s ∈ (exPatchBookBinding true).filterSeqs) ∧
    DoubleArray.IsExcluded (NewDoubleArray [["book", "name"], ["book"], ["book"]])
        ["book", "name"] =
      DoubleArray.IsExcluded (exPatchBookBinding true).QueryParamFilter.DoubleArray
        ["book", "name"] ∧
    DoubleArray.IsExcluded (exPatchBookBinding true).QueryParamFilter.DoubleArray
        ["book", "name"] = true ∧
    DoubleArray.IsExcluded (exPatchBookBinding true).QueryParamFilter.DoubleArray
        ["book", "title"] = false :=
  have h : ∀ s, s ∈ [["book", "name"], ["book"], ["book"]] ↔
      s ∈ (exPatchBookBinding true).filterSeqs := by
    have e : (exPatchBookBinding true).filterSeqs = [["book"], ["book", "name"]] := by decide
    intro s
    rw [e]
    simp only [List.mem_cons, List.mem_singleton, List.not_mem_nil, or_false]
    tauto
  ⟨h,
    (C1_QueryParamFilter_excludes_exactly (exPatchBookBinding true) ["book", "name"]).2 _ h,
    by decide, by decide⟩

/-- C6: `HasQueryParam` is true exactly when the Body is not the whole-message
wildcard (absent, or present with a non-empty field-path) and some top-level
field of the request message is named neither by the body's dotted field-path
nor by the dotted field-path of any path parameter; in particular it is false
for a body-less binding whose path parameters name every request field, and the
query-string step is then not synthesized. -/
theorem C6_HasQueryParam_iff (b : binding) :
    (b.HasQueryParam = true ↔
      (b.Body = none ∨ ∃ body, b.Body = some body ∧ body.FieldPath ≠ []) ∧
      ∃ f ∈ b.Method.RequestType.Fields,
        (∀ body, b.Body = some body → f.Name ≠ body.FieldPath.String) ∧
        ∀ p ∈ b.PathParams, f.Name ≠ p.FieldPath.String) ∧
    (b.Body = none →
      (∀ f ∈ b.Method.RequestType.Fields, ∃ p ∈ b.PathParams, p.FieldPath.String = f.Name) →
      b.HasQueryParam = false ∧ b.emitsPopulateQueryParameters = false) := by
  have key : b.HasQueryParam = true ↔
      (b.Body = none ∨ ∃ body, b.Body = some body ∧ body.FieldPath ≠ []) ∧
      ∃ f ∈ b.Method.RequestType.Fields,
        (∀ body, b.Body = some body → f.Name ≠ body.FieldPath.String) ∧
        ∀ p ∈ b.PathParams, f.Name ≠ p.FieldPath.String := by
    by_cases hw : b.Body = none ∨ ∃ body, b.Body = some body ∧ body.FieldPath ≠ []
    · rw [HasQueryParam_of_not_wildcard b hw]
      simp [hw]
    · have hfalse : b.HasQueryParam = false := by
        cases hb : b.Body with
        | none => exact absurd (Or.inl hb) hw
        | some body =>
          apply HasQueryParam_of_wildcard b body hb
          by_contra hne
          exact hw (Or.inr ⟨body, hb, hne⟩)
      simp [hfalse, hw]
  refine ⟨key, ?_⟩
  intro hb hall
  unfold binding.emitsPopulateQueryParameters
  cases hq : b.HasQueryParam with
  | false => exact ⟨rfl, rfl⟩
  | true =>
    obtain ⟨-, f, hf, -, hp⟩ := key.1 hq
    obtain ⟨p, hpm, hpe⟩ := hall f hf
    exact absurd hpe.symm (hp p hpm)

/-- C6, at a sample input: `GET /v1/hello/{name}` without body, on a request
whose only field is `name`, needs no query parameters. -/
theorem C6_HasQueryParam_iff_witness :
    exGetHelloBinding.Body = none ∧
    (∀ f ∈ exGetHelloBinding.Method.RequestType.Fields,
      ∃ p ∈ exGetHelloBinding.PathParams, p.FieldPath.String = f.Name) ∧
    exGetHelloBinding.HasQueryParam = false ∧
    exGetHelloBinding.emitsPopulateQueryParameters = false :=
  have h : ∀ f ∈ exGetHelloBinding.Method.RequestType.Fields,
      ∃ p ∈ exGetHelloBinding.PathParams, p.FieldPath.String = f.Name := by decide
  ⟨rfl, h, (C6_HasQueryParam_iff exGetHelloBinding).2 rfl h⟩

/-- C7, as stated, fails: the binding `GET /v1/hello/{name}` has no Body, yet
`HasQueryParam` is false for it, its path parameter naming the only field of
the request. -/
theorem C7_counterexample :
    exGetHelloBinding.Body = none ∧ exGetHelloBinding.HasQueryParam = false := by
  decide

/-- C7, amended: `HasQueryParam` returns false exactly when the Body consumes
the entire request message (present with an empty field-path) or every
top-level field of the request message is named by the body's dotted field-path
or by the dotted field-path of a path parameter; for every other binding it
returns true. -/
theorem C7_HasQueryParam_false_iff (b : binding) :
    b.HasQueryParam = false ↔
      (∃ body, b.Body = some body ∧ body.FieldPath = []) ∨
      ∀ f ∈ b.Method.RequestType.Fields,
        (∃ body, b.Body = some body ∧ f.Name = body.FieldPath.String) ∨
        ∃ p ∈ b.PathParams, f.Name = p.FieldPath.String := by
  by_cases hw : b.Body = none ∨ ∃ body, b.Body = some body ∧ body.FieldPath ≠ []
  · have hnw : ¬ ∃ body, b.Body = some body ∧ body.FieldPath = [] := by
      rintro ⟨body, hb, he⟩
      rcases hw with hw | ⟨body', hb', hne⟩
      · rw [hw] at hb; cases hb
      · rw [hb] at hb'; cases hb'; exact hne he
    have key := HasQueryParam_of_not_wildcard b hw
    simp only [hnw, false_or]
    rw [← Bool.not_eq_true, key]
    constructor
    · intro hno f hf
      by_contra hcon
      apply hno
      refine ⟨f, hf, ?_, ?_⟩
      · intro body hb he
        exact hcon (Or.inl ⟨body, hb, he⟩)
      · intro p hp he
        exact hcon (Or.inr ⟨p, hp, he⟩)
    · rintro hall ⟨f, hf, hb, hp⟩
      rcases hall f hf with ⟨body, hbody, he⟩ | ⟨p, hpm, he⟩
      · exact hb body hbody he
      · exact hp p hpm he
  · have hex : ∃ body, b.Body = some body ∧ body.FieldPath = [] := by
      cases hb : b.Body with
      | none => exact absurd (Or.inl hb) hw
      | some body =>
        refine ⟨body, rfl, ?_⟩
        by_contra hne
        exact hw (Or.inr ⟨body, hb, hne⟩)
    obtain ⟨body, hb, he⟩ := hex
    have hfalse := HasQueryParam_of_wildcard b body hb he
    simp only [hfalse, true_iff]
    exact Or.inl ⟨body, hb, he⟩

/-- C8: `FieldMaskField` returns the camel-cased name of the request message's
field of type ".google.protobuf.FieldMask" when there is exactly one such
field, and the empty string when there is none or more than one. -/
theorem C8_FieldMaskField_unique (camel : String → String) (b : binding) :
    (∀ f, b.Method.RequestType.Fields.filter
          (fun f => decide (f.TypeName = ".google.protobuf.FieldMask")) = [f] →
        b.FieldMaskField camel = camel f.Name) ∧
    ((b.Method.RequestType.Fields.filter
          (fun f => decide (f.TypeName = ".google.protobuf.FieldMask"))).length ≠ 1 →
        b.FieldMaskField camel = "") := by
  unfold binding.FieldMaskField
  rw [fieldMaskLoop_eq]
  simp only [Option.toList, List.nil_append]
  refine ⟨?_, ?_⟩
  · intro f hf
    rw [hf]
  · intro hlen
    match hm : b.Method.RequestType.Fields.filter
        (fun f => decide (f.TypeName = ".google.protobuf.FieldMask")) with
    | [] => rw [hm]
    | [f] => rw [hm] at hlen; simp at hlen
    | _ :: _ :: _ => rw [hm]

/-- C8, at sample inputs: the update request has the single field mask
`update_mask`; the hello request has none. -/
theorem C8_FieldMaskField_unique_witness :
    (exPatchBookBinding true).FieldMaskField (fun s => s) = "update_mask" ∧
    exGetHelloBinding.FieldMaskField (fun s => s) = "" :=
  ⟨(C8_FieldMaskField_unique (fun s => s) (exPatchBookBinding true)).1
      ⟨"update_mask", ".google.protobuf.FieldMask", false, false⟩ (by decide),
   (C8_FieldMaskField_unique (fun s => s) exGetHelloBinding).2 (by decide)⟩

/-- C9: `hasEnumPathParam(repeated)` is true exactly when some path parameter of
the binding is enum-typed and its repeated-cardinality equals the flag;
`HasEnumPathParam` is the instance with the flag false and
`HasRepeatedEnumPathParam` the instance with the flag true. -/
theorem C9_hasEnumPathParam_iff (b : binding) (repeated : Bool) :
    (b.hasEnumPathParam repeated = true ↔
      ∃ p ∈ b.PathParams, p.IsEnum = true ∧ p.IsRepeated = repeated) ∧
    b.HasEnumPathParam = b.hasEnumPathParam false ∧
    b.HasRepeatedEnumPathParam = b.hasEnumPathParam true :=
  ⟨hasEnumPathParamLoop_iff repeated b.PathParams, rfl, rfl⟩

/-- C10, as stated, fails: with the patch switch off, the binding
`PATCH /v1/{book.name}` with body `book` on a request with one field mask meets
the four conditions and yet the derivation step is not synthesized. -/
theorem C10_counterexample :
    ¬ (((exPatchBookBinding false).emitsFieldMaskFromRequestBody (fun s => s) = true) ↔
        ((exPatchBookBinding false).Body.isSome = true ∧
          (exPatchBookBinding false).HTTPMethod = "PATCH" ∧
          (exPatchBookBinding false).FieldMaskField (fun s => s) ≠ "" ∧
          (exPatchBookBinding false).GetBodyFieldPath ≠ "*")) := by
  decide

/-- C10, amended: the step deriving the field mask from the raw body is
synthesized exactly when `AllowPatchFeature` is set, the binding has a Body, its
HTTP verb is PATCH, `FieldMaskField` is non-empty and `GetBodyFieldPath` is not
"*". -/
theorem C10_emitsFieldMaskFromRequestBody_iff (camel : String → String) (b : binding) :
    b.emitsFieldMaskFromRequestBody camel = true ↔
      (b.AllowPatchFeature = true ∧ b.Body.isSome = true ∧ b.HTTPMethod = "PATCH" ∧
        b.FieldMaskField camel ≠ "" ∧ b.GetBodyFieldPath ≠ "*") := by
  unfold binding.emitsFieldMaskFromRequestBody
  simp only [Bool.and_eq_true, beq_iff_eq, bne_iff_ne, ne_eq, Bool.not_eq_true',
    beq_eq_false_iff_ne]
  constructor
  · rintro ⟨h1, ⟨⟨h2, h3⟩, h4⟩, h5⟩
    exact ⟨h2, h1, h3, h4, fun e => h5 e.symm⟩
  · rintro ⟨h2, h1, h3, h4, h5⟩
    exact ⟨h1, ⟨⟨h2, h3⟩, h4⟩, fun e => h5 e.symm⟩

end gengateway

namespace gengateway

/-! ## Call shapes: handler selection, local registration, forwarders -/

/-- C11: the remote-handler template is the bidirectional one exactly when both
streaming flags are set, the client-streaming one exactly when only
client-streaming is set, and the unary ("client-rpc") one exactly when
client-streaming is not set, which includes server-streaming-only methods; the
three cases exclude one another and cover every binding. -/
theorem C11_handlerTemplate_selection (b : binding) :
    (b.handlerTemplate = HandlerFunc.bidiStreamingRequestFunc ↔
      (b.Method.ClientStreaming = true ∧ b.Method.ServerStreaming = true)) ∧
    (b.handlerTemplate = HandlerFunc.clientStreamingRequestFunc ↔
      (b.Method.ClientStreaming = true ∧ b.Method.ServerStreaming = false)) ∧
    (b.handlerTemplate = HandlerFunc.clientRPCRequestFunc ↔
      b.Method.ClientStreaming = false) ∧
    (b.Method.ClientStreaming = false → b.Method.ServerStreaming = true →
      b.handlerTemplate = HandlerFunc.clientRPCRequestFunc) ∧
    (∃! f, b.handlerTemplate = f) := by
  unfold binding.handlerTemplate
  cases b.Method.ClientStreaming <;> cases b.Method.ServerStreaming <;> simp

/-- C11, at a sample input: a server-streaming-only method gets the unary
template. -/
theorem C11_handlerTemplate_selection_witness :
    (exStreamBinding false true).handlerTemplate = HandlerFunc.clientRPCRequestFunc :=
  (C11_handlerTemplate_selection (exStreamBinding false true)).2.2.2.1 rfl rfl

/-- C12: the local request function is emitted exactly when the method has
neither streaming flag set (and then with its signature line); the
direct-to-implementation registration calls it for exactly those methods and
wires the Unimplemented responder when either flag is set; hence a registration
that calls the local request function of a binding finds it emitted. -/
theorem C12_local_handler_registration (b : binding) :
    (b.localHandlerTemplate = true ↔
      (b.Method.ClientStreaming = false ∧ b.Method.ServerStreaming = false)) ∧
    (b.localHandlerTemplate = true → b.localRequestFuncSignature = true) ∧
    (localRegistration b.Method = LocalRegistration.callsLocalRequest ↔
      (b.Method.ClientStreaming = false ∧ b.Method.ServerStreaming = false)) ∧
    (localRegistration b.Method = LocalRegistration.unimplemented ↔
      (b.Method.ClientStreaming = true ∨ b.Method.ServerStreaming = true)) ∧
    (localRegistration b.Method = LocalRegistration.callsLocalRequest →
      b.localHandlerTemplate = true) := by
  unfold binding.localHandlerTemplate binding.localRequestFuncSignature localRegistration
  cases b.Method.ClientStreaming <;> cases b.Method.ServerStreaming <;> simp

/-- C12, at a sample input: for the unary sample method the registration calls
the local request function and the function is emitted. -/
theorem C12_local_handler_registration_witness :
    localRegistration (exStreamBinding false false).Method
        = LocalRegistration.callsLocalRequest ∧
    (exStreamBinding false false).localHandlerTemplate = true :=
  ⟨rfl, (C12_local_handler_registration (exStreamBinding false false)).2.2.2.2 rfl⟩

/-- C13: the forwarder bound to a binding is the stream forwarder exactly when
the method's server-streaming flag is set and the message forwarder otherwise;
the signature of the remote request function declares a stream handle exactly
when that flag is set; and for each of the four call shapes what the function
body returns, what the signature declares and what the registration hands to
the forwarder agree. -/
theorem C13_forwarder_matches_result (b : binding) :
    (forwardBinding b.Method = Forwarder.ForwardResponseStream ↔
      b.Method.ServerStreaming = true) ∧
    (forwardBinding b.Method = Forwarder.ForwardResponseMessage ↔
      b.Method.ServerStreaming = false) ∧
    (b.requestFuncSignature = ResultKind.streamHandle ↔ b.Method.ServerStreaming = true) ∧
    (forwardBinding b.Method = Forwarder.ForwardResponseStream ↔
      b.requestFuncSignature = ResultKind.streamHandle) ∧
    b.requestFuncReturns = b.requestFuncSignature ∧
    registerClientForwards b.Method = b.requestFuncSignature := by
  unfold forwardBinding binding.requestFuncSignature binding.requestFuncReturns
    binding.handlerTemplate registerClientForwards
  cases b.Method.ClientStreaming <;> cases b.Method.ServerStreaming <;> simp

/-- C17: whenever `GetBodyFieldPath` returns a value other than "*", the Body is
present with a non-empty field-path and `GetBodyFieldStructName` returns a name
and no error; hence whenever the field-mask derivation step is synthesized,
`GetBodyFieldStructName` does not fail. -/
theorem C17_body_field_struct_name_defined (camel : String → String) (b : binding) :
    (b.GetBodyFieldPath ≠ "*" →
      (∃ body, b.Body = some body ∧ body.FieldPath ≠ []) ∧
      ∃ body, b.Body = some body ∧
        b.GetBodyFieldStructName camel = .ok (camel body.FieldPath.String)) ∧
    (b.emitsFieldMaskFromRequestBody camel = true →
      ∀ msg, b.GetBodyFieldStructName camel ≠ .error msg) := by
  have key : b.GetBodyFieldPath ≠ "*" →
      (∃ body, b.Body = some body ∧ body.FieldPath ≠ []) ∧
      ∃ body, b.Body = some body ∧
        b.GetBodyFieldStructName camel = .ok (camel body.FieldPath.String) := by
    intro h
    unfold binding.GetBodyFieldPath at h
    unfold binding.GetBodyFieldStructName
    cases hb : b.Body with
    | none => rw [hb] at h; exact absurd rfl h
    | some body =>
      rw [hb] at h
      by_cases hlen : body.FieldPath.length ≠ 0
      · have hne : body.FieldPath ≠ [] := fun e => hlen (by rw [e]; rfl)
        refine ⟨⟨body, rfl, hne⟩, body, rfl, ?_⟩
        exact if_pos hlen
      · have h' : (if body.FieldPath.length ≠ 0 then body.FieldPath.String else "*") ≠ "*" := h
        rw [if_neg hlen] at h'
        exact absurd rfl h'
  refine ⟨key, ?_⟩
  intro hemit msg
  have hstar : b.GetBodyFieldPath ≠ "*" := by
    unfold binding.emitsFieldMaskFromRequestBody at hemit
    simp only [Bool.and_eq_true, Bool.not_eq_true', beq_eq_false_iff_ne] at hemit
    exact fun e => hemit.2.2 e.symm
  obtain ⟨-, body, -, hok⟩ := key hstar
  rw [hok]
  simp

/-- C17, at a sample input: for `PATCH /v1/{book.name}` with body `book` the
body field-path is `book` and the struct name is defined. -/
theorem C17_body_field_struct_name_defined_witness :
    (exPatchBookBinding true).GetBodyFieldPath ≠ "*" ∧
    (∃ body, (exPatchBookBinding true).Body = some body ∧
      (exPatchBookBinding true).GetBodyFieldStructName (fun s => s)
        = .ok ((fun s => s) body.FieldPath.String)) ∧
    (∀ msg, (exPatchBookBinding true).GetBodyFieldStructName (fun s => s) ≠ .error msg) :=
  ⟨by decide,
    ((C17_body_field_struct_name_defined (fun s => s) (exPatchBookBinding true)).1
      (by decide)).2,
    (C17_body_field_struct_name_defined (fun s => s) (exPatchBookBinding true)).2
      (by decide)⟩

end gengateway

namespace gengateway

/-! ## Import list of `generate` -/

theorem mem_set (m : StringSet) (k x : String) : x ∈ StringSet.set m k ↔ x ∈ m ∨ x = k := by
  unfold StringSet.set
  by_cases h : k ∈ m
  · simp only [h, if_true]
    constructor
    · exact Or.inl
    · rintro (h1 | rfl)
      · exact h1
      · exact h
  · simp [h]

theorem newImports_append (file : File) (a b : List GoPackage) :
    ∀ seen : StringSet,
      newImports file (a ++ b) seen =
        ((newImports file b (newImports file a seen).1).1,
          (newImports file a seen).2 ++ (newImports file b (newImports file a seen).1).2) := by
  induction a with
  | nil => intro seen; simp [newImports]
  | cons c a ih =>
    intro seen
    by_cases h : c = file.GoPkg ∨ c.Path ∈ seen
    · simp only [List.cons_append, newImports, h, if_true, List.append_eq, ih]
    · simp only [List.cons_append, newImports, h, if_false, List.append_eq, ih]

theorem addEnumPathParamImportsParams_eq (reg : Registry) (file : File) :
    ∀ (ps : List Parameter) (seen : StringSet) (imports : List GoPackage),
      addEnumPathParamImportsParams reg file ps seen imports =
        ((newImports file (paramCandidates reg ps) seen).1,
          imports ++ (newImports file (paramCandidates reg ps) seen).2) := by
  intro ps
  induction ps with
  | nil => intro seen imports; simp [addEnumPathParamImportsParams, paramCandidates, newImports]
  | cons p ps ih =>
    intro seen imports
    cases hl : reg.LookupEnum p.Target.TypeName with
    | none => simp only [addEnumPathParamImportsParams, paramCandidates, hl, ih]
    | some e =>
      by_cases h : e.GoPkg = file.GoPkg ∨ e.GoPkg.Path ∈ seen
      · simp only [addEnumPathParamImportsParams, paramCandidates, hl, newImports, h, if_true, ih]
      · simp only [addEnumPathParamImportsParams, paramCandidates, hl, newImports, h, if_false,
          ih, List.append_assoc, List.singleton_append]

theorem addEnumPathParamImportsBindings_eq (reg : Registry) (file : File) :
    ∀ (bs : List Binding) (seen : StringSet) (imports : List GoPackage),
      addEnumPathParamImportsBindings reg file bs seen imports =
        ((newImports file (bindingsCandidates reg bs) seen).1,
          imports ++ (newImports file (bindingsCandidates reg bs) seen).2) := by
  intro bs
  induction bs with
  | nil =>
    intro seen imports
    simp [addEnumPathParamImportsBindings, bindingsCandidates, newImports]
  | cons b bs ih =>
    intro seen imports
    simp only [addEnumPathParamImportsBindings, bindingsCandidates,
      addEnumPathParamImportsParams_eq, ih, newImports_append, List.append_assoc]

theorem generateMethods_eq (reg : Registry) (file : File) :
    ∀ (ms : List Method) (seen : StringSet) (imports : List GoPackage),
      generateMethods reg file ms seen imports =
        ((newImports file (methodsCandidates reg ms) seen).1,
          imports ++ (newImports file (methodsCandidates reg ms) seen).2) := by
  intro ms
  induction ms with
  | nil => intro seen imports; simp [generateMethods, methodsCandidates, newImports]
  | cons m ms ih =>
    intro seen imports
    simp only [generateMethods, addEnumPathParamImports, addEnumPathParamImportsBindings_eq,
      methodsCandidates, methodCandidates, newImports_append, List.nil_append]
    by_cases h0 : m.Bindings.length = 0
    · simp only [h0, true_or, if_true, ih, newImports, List.append_nil, List.append_assoc]
    · by_cases h : m.RequestType.GoPkg = file.GoPkg ∨
          m.RequestType.GoPkg.Path ∈ (newImports file (bindingsCandidates reg m.Bindings) seen).1
      · simp only [h0, false_or, h, if_true, if_false, ih, newImports, List.append_nil,
          List.append_assoc]
      · simp only [h0, false_or, h, if_false, ih, newImports, List.append_assoc,
          List.singleton_append, List.append_nil]

theorem generateServices_eq (reg : Registry) (file : File) :
    ∀ (svcs : List Service) (seen : StringSet) (imports : List GoPackage),
      generateServices reg file svcs seen imports =
        ((newImports file (servicesCandidates reg svcs) seen).1,
          imports ++ (newImports file (servicesCandidates reg svcs) seen).2) := by
  intro svcs
  induction svcs with
  | nil => intro seen imports; simp [generateServices, servicesCandidates, newImports]
  | cons svc svcs ih =>
    intro seen imports
    simp only [generateServices, generateMethods_eq, servicesCandidates, ih, newImports_append,
      List.append_assoc]

theorem newImports_spec (file : File) :
    ∀ (cs : List GoPackage) (seen : StringSet),
      ((newImports file cs seen).2.map GoPackage.Path).Nodup ∧
      (∀ q ∈ (newImports file cs seen).2, q ∈ cs ∧ q ≠ file.GoPkg ∧ q.Path ∉ seen) ∧
      (∀ x, x ∈ (newImports file cs seen).1 ↔
        x ∈ seen ∨ ∃ q ∈ (newImports file cs seen).2, q.Path = x) ∧
      (∀ c ∈ cs, c ≠ file.GoPkg → c.Path ∈ (newImports file cs seen).1) := by
  intro cs
  induction cs with
  | nil => intro seen; simp [newImports]
  | cons c cs ih =>
    intro seen
    by_cases h : c = file.GoPkg ∨ c.Path ∈ seen
    · obtain ⟨i1, i2, i3, i4⟩ := ih seen
      simp only [newImports, h, if_true]
      refine ⟨i1, ?_, i3, ?_⟩
      · intro q hq
        obtain ⟨a, b, d⟩ := i2 q hq
        exact ⟨List.mem_cons_of_mem _ a, b, d⟩
      · intro c' hc' hne
        rcases List.mem_cons.1 hc' with rfl | hc'
        · rcases h with h | h
          · exact absurd h hne
          · exact (i3 _).2 (Or.inl h)
        · exact i4 c' hc' hne
    · obtain ⟨i1, i2, i3, i4⟩ := ih (seen.set c.Path)
      have hc1 : c ≠ file.GoPkg := fun e => h (Or.inl e)
      have hc2 : c.Path ∉ seen := fun e => h (Or.inr e)
      simp only [newImports, h, if_false]
      refine ⟨?_, ?_, ?_, ?_⟩
      · simp only [List.map_cons, List.nodup_cons]
        refine ⟨?_, i1⟩
        intro hin
        obtain ⟨q, hq, hqp⟩ := List.mem_map.1 hin
        exact (i2 q hq).2.2 ((mem_set _ _ _).2 (Or.inr hqp))
      · intro q hq
        rcases List.mem_cons.1 hq with rfl | hq
        · exact ⟨List.mem_cons_self _ _, hc1, hc2⟩
        · obtain ⟨a, b, d⟩ := i2 q hq
          exact ⟨List.mem_cons_of_mem _ a, b, fun e => d ((mem_set _ _ _).2 (Or.inl e))⟩
      · intro x
        rw [i3 x, mem_set]
        constructor
        · rintro ((hx | rfl) | ⟨q, hq, rfl⟩)
          · exact Or.inl hx
          · exact Or.inr ⟨c, List.mem_cons_self _ _, rfl⟩
          · exact Or.inr ⟨q, List.mem_cons_of_mem _ hq, rfl⟩
        · rintro (hx | ⟨q, hq, rfl⟩)
          · exact Or.inl (Or.inl hx)
          · rcases List.mem_cons.1 hq with rfl | hq
            · exact Or.inl (Or.inr rfl)
            · exact Or.inr ⟨q, hq, rfl⟩
      · intro c' hc' hne
        rcases List.mem_cons.1 hc' with rfl | hc'
        · exact (i3 _).2 (Or.inl ((mem_set _ _ _).2 (Or.inr rfl)))
        · exact i4 c' hc' hne

theorem mem_paramCandidates (reg : Registry) (q : GoPackage) (ps : List Parameter) :
    q ∈ paramCandidates reg ps ↔
      ∃ p ∈ ps, ∃ e, reg.LookupEnum p.Target.TypeName = some e ∧ e.GoPkg = q := by
  induction ps with
  | nil => simp [paramCandidates]
  | cons p ps ih =>
    cases hl : reg.LookupEnum p.Target.TypeName with
    | none => simp [paramCandidates, hl, ih]
    | some e =>
      simp only [paramCandidates, hl, List.mem_cons, ih, exists_eq_or_imp, Option.some.injEq,
        exists_eq_left']
      constructor
      · rintro (rfl | h)
        · exact Or.inl rfl
        · exact Or.inr h
      · rintro (h | h)
        · exact Or.inl h.symm
        · exact Or.inr h

theorem mem_bindingsCandidates (reg : Registry) (q : GoPackage) (bs : List Binding) :
    q ∈ bindingsCandidates reg bs ↔
      ∃ b ∈ bs, ∃ p ∈ b.PathParams, ∃ e,
        reg.LookupEnum p.Target.TypeName = some e ∧ e.GoPkg = q := by
  induction bs with
  | nil => simp [bindingsCandidates]
  | cons b bs ih =>
    simp only [bindingsCandidates, List.mem_append, mem_paramCandidates, ih, List.mem_cons,
      exists_eq_or_imp]

theorem mem_methodsCandidates (reg : Registry) (q : GoPackage) (ms : List Method) :
    q ∈ methodsCandidates reg ms ↔
      (∃ m ∈ ms, m.Bindings ≠ [] ∧ m.RequestType.GoPkg = q) ∨
      (∃ m ∈ ms, ∃ b ∈ m.Bindings, ∃ p ∈ b.PathParams, ∃ e,
        reg.LookupEnum p.Target.TypeName = some e ∧ e.GoPkg = q) := by
  induction ms with
  | nil => simp [methodsCandidates]
  | cons m ms ih =>
    simp only [methodsCandidates, methodCandidates, List.mem_append, mem_bindingsCandidates, ih,
      List.mem_cons, exists_eq_or_imp]
    by_cases h0 : m.Bindings.length = 0
    · have hnil : m.Bindings = [] := List.length_eq_zero.1 h0
      simp only [h0, if_true, List.not_mem_nil, or_false, hnil, ne_eq, not_true_eq_false,
        false_and, false_or, exists_false, List.length_nil]
    · have hne : m.Bindings ≠ [] := fun e => h0 (by rw [e]; rfl)
      simp only [h0, if_false, List.mem_singleton, ne_eq, hne, not_false_eq_true, true_and]
      constructor
      · rintro ((h | h) | h | h)
        · exact Or.inr (Or.inl h)
        · exact Or.inl (Or.inl h.symm)
        · exact Or.inl (Or.inr h)
        · exact Or.inr (Or.inr h)
      · rintro ((h | h) | h | h)
        · exact Or.inl (Or.inr h.symm)
        · exact Or.inr (Or.inl h)
        · exact Or.inl (Or.inl h)
        · exact Or.inr (Or.inr h)

theorem mem_servicesCandidates (reg : Registry) (q : GoPackage) (svcs : List Service) :
    q ∈ servicesCandidates reg svcs ↔
      (∃ svc ∈ svcs, ∃ m ∈ svc.Methods, m.Bindings ≠ [] ∧ m.RequestType.GoPkg = q) ∨
      (∃ svc ∈ svcs, ∃ m ∈ svc.Methods, ∃ b ∈ m.Bindings, ∃ p ∈ b.PathParams, ∃ e,
        reg.LookupEnum p.Target.TypeName = some e ∧ e.GoPkg = q) := by
  induction svcs with
  | nil => simp [servicesCandidates]
  | cons svc svcs ih =>
    simp only [servicesCandidates, List.mem_append, mem_methodsCandidates, ih, List.mem_cons,
      exists_eq_or_imp]
    exact or_or_or_comm

theorem mem_foldl_set_path (base : List GoPackage) :
    ∀ (acc : StringSet) (x : String),
      x ∈ base.foldl (fun s pkg => StringSet.set s pkg.Path) acc ↔
        x ∈ acc ∨ ∃ p ∈ base, p.Path = x := by
  induction base with
  | nil => intro acc x; simp
  | cons p base ih =>
    intro acc x
    simp only [List.foldl_cons, ih, mem_set, List.mem_cons, exists_eq_or_imp]
    constructor
    · rintro ((h | h) | h)
      · exact Or.inl h
      · exact Or.inr (Or.inl h.symm)
      · exact Or.inr (Or.inr h)
    · rintro (h | h | h)
      · exact Or.inl (Or.inl h)
      · exact Or.inl (Or.inr h.symm)
      · exact Or.inr h

theorem generateImports_eq (g : generator) (reg : Registry) (file : File) :
    generateImports g reg file =
      g.baseImports ++ (if g.standalone then [file.GoPkg] else []) ++
        (newImports file (servicesCandidates reg file.Services)
          (g.baseImports.foldl (fun s pkg => StringSet.set s pkg.Path) [])).2 := by
  unfold generateImports
  simp only [generateServices_eq]
  have hb : g.baseImports.foldl (fun l pkg => l ++ [pkg]) [] = g.baseImports := by
    have := foldl_append_singleton (fun p : GoPackage => p) g.baseImports []
    simpa using this
  rw [hb]
  cases g.standalone <;> simp

/-- C15, as stated, fails: the sample file has a bound method whose response
type lives in another module than the file and none of whose bindings declares
a ResponseBody, so that the generated text does not name the response type; for
neither setting of `standalone` does the import list hold a package with that
module's path. -/
theorem C15_counterexample :
    (∃ svc ∈ exFileForeignReply.Services, ∃ m ∈ svc.Methods,
      m.Bindings ≠ [] ∧ m.ResponseType.GoPkg = exOtherPkg ∧
      m.ResponseType.GoPkg ≠ exFileForeignReply.GoPkg ∧
      ∀ b ∈ m.Bindings, responseBodyWrapper b = false) ∧
    (¬ ∃ q ∈ generateImports exGenerator exRegistry exFileForeignReply,
      q.Path = exOtherPkg.Path) ∧
    (¬ ∃ q ∈ generateImports { exGenerator with standalone := true } exRegistry
        exFileForeignReply,
      q.Path = exOtherPkg.Path) := by
  decide

/-- The sample file whose binding declares a ResponseBody and whose response
type lives in another module: the trailer names the response type, and the
list of imports holds no package with that module's path. -/
theorem generateImports_response_body_sample :
    (∃ svc ∈ exFileForeignReplyBody.Services, ∃ m ∈ svc.Methods,
      m.ResponseType.GoPkg = exOtherPkg ∧ ∃ b ∈ m.Bindings, responseBodyWrapper b = true) ∧
    (¬ ∃ q ∈ generateImports exGenerator exRegistry exFileForeignReplyBody,
      q.Path = exOtherPkg.Path) := by
  decide

/-- C15, amended: the import list built by `generate` holds a package with the
path of the module of every bound method's request type, and of the module of
the enum of every path parameter whose type name the registry resolves to an
enum, whenever that module is not the file's own module. -/
theorem C15_generate_imports_request_and_enum (g : generator) (reg : Registry) (file : File)
    (svc : Service) (hsvc : svc ∈ file.Services) (m : Method) (hm : m ∈ svc.Methods) :
    (m.Bindings ≠ [] → m.RequestType.GoPkg ≠ file.GoPkg →
      ∃ q ∈ generateImports g reg file, q.Path = m.RequestType.GoPkg.Path) ∧
    (∀ b ∈ m.Bindings, ∀ p ∈ b.PathParams, ∀ e,
      reg.LookupEnum p.Target.TypeName = some e → e.GoPkg ≠ file.GoPkg →
      ∃ q ∈ generateImports g reg file, q.Path = e.GoPkg.Path) := by
  have key : ∀ c ∈ servicesCandidates reg file.Services, c ≠ file.GoPkg →
      ∃ q ∈ generateImports g reg file, q.Path = c.Path := by
    intro c hc hne
    obtain ⟨-, -, i3, i4⟩ := newImports_spec file (servicesCandidates reg file.Services)
      (g.baseImports.foldl (fun s pkg => StringSet.set s pkg.Path) [])
    rw [generateImports_eq]
    rcases (i3 _).1 (i4 c hc hne) with h | ⟨q, hq, hqp⟩
    · rcases (mem_foldl_set_path _ _ _).1 h with h | ⟨p, hp, hpp⟩
      · cases h
      · exact ⟨p, by simp [hp], hpp⟩
    · exact ⟨q, by simp [hq], hqp⟩
  refine ⟨?_, ?_⟩
  · intro hb hne
    apply key _ _ hne
    exact (mem_servicesCandidates _ _ _).2 (Or.inl ⟨svc, hsvc, m, hm, hb, rfl⟩)
  · intro b hb p hp e he hne
    apply key _ _ hne
    exact (mem_servicesCandidates _ _ _).2 (Or.inr ⟨svc, hsvc, m, hm, b, hb, p, hp, e, he, rfl⟩)

/-- C15 amended, at a sample input: the request type and the enum of the path
parameter of the sample method live in two other modules; both are imported. -/
theorem C15_generate_imports_request_and_enum_witness :
    (∃ q ∈ generateImports exGenerator exEnumRegistry exFileForeignRequest,
      q.Path = "example.com/other") ∧
    (∃ q ∈ generateImports exGenerator exEnumRegistry exFileForeignRequest,
      q.Path = "example.com/kinds") :=
  ⟨(C15_generate_imports_request_and_enum exGenerator exEnumRegistry exFileForeignRequest
      _ (List.mem_singleton.2 rfl) _ (List.mem_singleton.2 rfl)).1 (by decide) (by decide),
   (C15_generate_imports_request_and_enum exGenerator exEnumRegistry exFileForeignRequest
      _ (List.mem_singleton.2 rfl) _ (List.mem_singleton.2 rfl)).2
      _ (List.mem_singleton.2 rfl) _ (List.mem_singleton.2 rfl) ⟨exEnumPkg⟩
      (by decide) (by decide)⟩

/-- C18: for either setting of `standalone`, the import list of `generate` is
the base imports, then the file's package when `standalone` is set, then the
imports derived from the methods; the derived imports have pairwise distinct
paths, none has the path of a base import, none is the file's own package, and
each is the request-type package of a method with at least one binding or the
package of the enum of a path parameter. -/
theorem C18_generate_derived_imports (g : generator) (reg : Registry) (file : File) :
    ∃ derived : List GoPackage,
      generateImports g reg file =
        g.baseImports ++ (if g.standalone then [file.GoPkg] else []) ++ derived ∧
      (derived.map GoPackage.Path).Nodup ∧
      ∀ q ∈ derived,
        (∀ p ∈ g.baseImports, q.Path ≠ p.Path) ∧ q ≠ file.GoPkg ∧ importOrigin reg file q := by
  obtain ⟨i1, i2, -, -⟩ := newImports_spec file (servicesCandidates reg file.Services)
    (g.baseImports.foldl (fun s pkg => StringSet.set s pkg.Path) [])
  refine ⟨_, generateImports_eq g reg file, i1, ?_⟩
  intro q hq
  obtain ⟨hc, hne, hseen⟩ := i2 q hq
  refine ⟨?_, hne, (mem_servicesCandidates _ _ _).1 hc⟩
  intro p hp heq
  exact hseen ((mem_foldl_set_path _ _ _).2 (Or.inr ⟨p, hp, heq.symm⟩))

end gengateway

namespace gengateway

/-! ## `queryParamFilter.String`: entries in the order of their codes -/

theorem fillEncodings_spec (F : Fmt) :
    ∀ (entries : List (String × Int)) (arr : List String),
      (∀ e ∈ entries, 0 ≤ e.2 ∧ e.2 < arr.length) →
      (entries.map Prod.snd).Nodup →
      ∃ arr', fillEncodings F entries arr = some arr' ∧ arr'.length = arr.length ∧
        (∀ e ∈ entries, arr'[e.2.toNat]? = some (encodingEntry F e.1 e.2)) ∧
        (∀ i, (∀ e ∈ entries, e.2.toNat ≠ i) → arr'[i]? = arr[i]?) := by
  intro entries
  induction entries with
  | nil => intro arr _ _; exact ⟨arr, rfl, rfl, by simp, by simp⟩
  | cons e entries ih =>
    intro arr hr hnd
    obtain ⟨str, enc⟩ := e
    have hr0 := hr (str, enc) (List.mem_cons_self _ _)
    simp only at hr0
    simp only [List.map_cons, List.nodup_cons] at hnd
    have hlt : enc.toNat < arr.length := by omega
    have hrest : ∀ e ∈ entries,
        0 ≤ e.2 ∧ e.2 < (arr.set enc.toNat (encodingEntry F str enc)).length := by
      intro e he
      rw [List.length_set]
      exact hr e (List.mem_cons_of_mem _ he)
    obtain ⟨arr', h1, h2, h3, h4⟩ :=
      ih (arr.set enc.toNat (encodingEntry F str enc)) hrest hnd.2
    refine ⟨arr', ?_, ?_, ?_, ?_⟩
    · simp only [fillEncodings, hr0, and_self, if_true, h1]
    · rw [h2, List.length_set]
    · intro e he
      rcases List.mem_cons.1 he with rfl | he
      · have hne : ∀ e' ∈ entries, e'.2.toNat ≠ enc.toNat := by
          intro e' he' heq
          have h0 := hr e' (List.mem_cons_of_mem _ he')
          have : e'.2 = enc := by omega
          exact hnd.1 (List.mem_map.2 ⟨e', he', this⟩)
        rw [h4 _ hne]
        exact List.getElem?_set_self hlt
      · exact h3 e he
    · intro i hi
      have hne : enc.toNat ≠ i := hi (str, enc) (List.mem_cons_self _ _)
      rw [h4 i (fun e he => hi e (List.mem_cons_of_mem _ he))]
      exact List.getElem?_set_ne hne

theorem encoding_values_of_perm (entries : List (String × Int))
    (h : (entries.map Prod.snd).Perm ((List.range entries.length).map Int.ofNat)) :
    (∀ e ∈ entries, 0 ≤ e.2 ∧ e.2 < entries.length) ∧ (entries.map Prod.snd).Nodup ∧
      ∀ i, i < entries.length → ∃ e ∈ entries, e.2.toNat = i := by
  refine ⟨?_, ?_, ?_⟩
  · intro e he
    have : e.2 ∈ (List.range entries.length).map Int.ofNat :=
      h.subset (List.mem_map.2 ⟨e, he, rfl⟩)
    obtain ⟨i, hi, hie⟩ := List.mem_map.1 this
    rw [List.mem_range] at hi
    rw [← hie]
    constructor
    · exact Int.ofNat_nonneg i
    · exact Int.ofNat_lt.2 hi
  · rw [h.nodup_iff]
    exact (List.nodup_range _).map (fun a b hab => Int.ofNat.inj hab)
  · intro i hi
    have : Int.ofNat i ∈ entries.map Prod.snd :=
      h.symm.subset (List.mem_map.2 ⟨i, List.mem_range.2 hi, rfl⟩)
    obtain ⟨e, he, hei⟩ := List.mem_map.1 this
    exact ⟨e, he, by rw [hei]; rfl⟩

/-- C16: when the codes of the `Encoding` entries are exactly 0..n-1, each once
(n the number of entries), the loop of `queryParamFilter.String` never indexes
out of range, the entry `"key": code` of every key stands at the position of
its code, so the entries are listed in ascending order of the code, and the
text is the same for every order in which the map yields its entries. -/
theorem C16_String_order_independent (F : Fmt) (f : DoubleArrayFields)
    (hbij : (f.Encoding.map Prod.snd).Perm
      ((List.range f.Encoding.length).map Int.ofNat)) :
    ∃ encodings : List String,
      fillEncodings F f.Encoding (List.replicate f.Encoding.length "") = some encodings ∧
      encodings.length = f.Encoding.length ∧
      (∀ e ∈ f.Encoding, encodings[e.2.toNat]? = some (encodingEntry F e.1 e.2)) ∧
      queryParamFilterString F f = some (doubleArrayText F encodings f.Base f.Check) ∧
      ∀ order : List (String × Int), order.Perm f.Encoding →
        queryParamFilterString F { f with Encoding := order } =
          queryParamFilterString F f := by
  obtain ⟨hv, hnd, hall⟩ := encoding_values_of_perm f.Encoding hbij
  have hv' : ∀ e ∈ f.Encoding,
      0 ≤ e.2 ∧ e.2 < (List.replicate f.Encoding.length "").length := by
    intro e he; rw [List.length_replicate]; exact hv e he
  obtain ⟨arr, h1, h2, h3, -⟩ := fillEncodings_spec F f.Encoding _ hv' hnd
  rw [List.length_replicate] at h2
  refine ⟨arr, h1, h2, h3, ?_, ?_⟩
  · simp only [queryParamFilterString, h1]
  · intro order hperm
    have hlen : order.length = f.Encoding.length := hperm.length_eq
    have hbij' : (order.map Prod.snd).Perm ((List.range order.length).map Int.ofNat) := by
      rw [hlen]
      exact (hperm.map Prod.snd).trans hbij
    obtain ⟨ov, ond, -⟩ := encoding_values_of_perm order hbij'
    have ov' : ∀ e ∈ order, 0 ≤ e.2 ∧ e.2 < (List.replicate order.length "").length := by
      intro e he; rw [List.length_replicate]; exact ov e he
    obtain ⟨arr', g1, g2, g3, -⟩ := fillEncodings_spec F order _ ov' ond
    rw [List.length_replicate] at g2
    have harr : arr' = arr := by
      apply List.ext_getElem?
      intro i
      by_cases hi : i < f.Encoding.length
      · obtain ⟨e, he, hei⟩ := hall i hi
        rw [← hei, h3 e he, g3 e (hperm.symm.subset he)]
      · have ha : arr.length ≤ i := by omega
        have ha' : arr'.length ≤ i := by omega
        rw [List.getElem?_eq_none ha, List.getElem?_eq_none ha']
    simp only [queryParamFilterString, h1, g1, harr]

/-- C16, at a sample input: the map yields `name` (code 1) before `book`
(code 0); the text lists `book` first and is the text of the other order. -/
theorem C16_String_order_independent_witness :
    (exDoubleArrayFields.Encoding.map Prod.snd).Perm
      ((List.range exDoubleArrayFields.Encoding.length).map Int.ofNat) ∧
    (∃ encodings : List String,
      fillEncodings exFmt exDoubleArrayFields.Encoding
        (List.replicate exDoubleArrayFields.Encoding.length "") = some encodings ∧
      encodings.length = exDoubleArrayFields.Encoding.length ∧
      (∀ e ∈ exDoubleArrayFields.Encoding,
        encodings[e.2.toNat]? = some (encodingEntry exFmt e.1 e.2)) ∧
      queryParamFilterString exFmt exDoubleArrayFields =
        some (doubleArrayText exFmt encodings exDoubleArrayFields.Base
          exDoubleArrayFields.Check) ∧
      ∀ order : List (String × Int), order.Perm exDoubleArrayFields.Encoding →
        queryParamFilterString exFmt { exDoubleArrayFields with Encoding := order } =
          queryParamFilterString exFmt exDoubleArrayFields) ∧
    queryParamFilterString exFmt exDoubleArrayFields =
      some ("&utilities.DoubleArray\x7bEncoding: map[string]int\x7b\"book\": 0, \"name\": 1" ++
        "\x7d, Base: []int\x7b1, 1, 0\x7d, Check: []int\x7b0, 1, 2\x7d\x7d") :=
  have h : (exDoubleArrayFields.Encoding.map Prod.snd).Perm
      ((List.range exDoubleArrayFields.Encoding.length).map Int.ofNat) := by
    decide
  ⟨h, C16_String_order_independent exFmt exDoubleArrayFields h, by decide⟩

end gengateway

namespace gengateway

/-! ## `New`: the retry loop ends at the first alias the registry accepts -/

theorem digitChar_value : ∀ k, k < 10 → (Nat.digitChar k).toNat - 48 = k := by
  decide

theorem toDigitsCore_value :
    ∀ (fuel n : Nat) (ds : List Char), n < fuel →
      digitsValue (Nat.toDigitsCore 10 fuel n ds) 0 = digitsValue ds n := by
  intro fuel
  induction fuel with
  | zero => intro n ds h; omega
  | succ fuel ih =>
    intro n ds h
    have hmod : (Nat.digitChar (n % 10)).toNat - 48 = n % 10 :=
      digitChar_value _ (Nat.mod_lt _ (by omega))
    by_cases hd : n / 10 = 0
    · have hn : n % 10 = n := by omega
      rw [hn] at hmod
      simp only [Nat.toDigitsCore, hd, if_true, digitsValue, List.foldl_cons, hn, hmod]
      simp
    · have hlt : n / 10 < fuel := by omega
      simp only [Nat.toDigitsCore, hd, if_false]
      rw [ih (n / 10) _ hlt]
      simp only [digitsValue, List.foldl_cons, hmod]
      have : n / 10 * 10 + n % 10 = n := by omega
      rw [this]

theorem repr_injective (i j : Nat) (h : Nat.repr i = Nat.repr j) : i = j := by
  have hd : Nat.toDigits 10 i = Nat.toDigits 10 j := by
    have := congrArg String.data h
    simpa [Nat.repr, List.asString] using this
  have hi := toDigitsCore_value (i + 1) i [] (by omega)
  have hj := toDigitsCore_value (j + 1) j [] (by omega)
  simp only [digitsValue, List.foldl_nil] at hi hj
  unfold Nat.toDigits at hd
  rw [← hi, ← hj, hd]

theorem suffixedAlias_injective (name : String) (i j : Nat)
    (h : suffixedAlias name i = suffixedAlias name j) : i = j := by
  unfold suffixedAlias at h
  have hd := congrArg String.data h
  simp only [String.data_append, List.append_assoc] at hd
  have h1 := List.append_cancel_left hd
  have h2 := List.append_cancel_left h1
  exact repr_injective i j (String.ext h2)

theorem reserve_refused (reg : Registry) (a p : String) (h : ¬ reg.accepts a p) :
    (reg.ReserveGoPackageAlias a p).1 = reg ∧ a ∈ reg.pkgAliases.map Prod.fst := by
  unfold Registry.accepts Registry.ReserveGoPackageAlias at h
  unfold Registry.ReserveGoPackageAlias
  cases hf : reg.pkgAliases.find? (fun e => e.1 == a) with
  | none => simp [hf] at h
  | some e =>
    have hmem : e ∈ reg.pkgAliases := List.mem_of_find?_eq_some hf
    have hkey : e.1 = a := by
      have := List.find?_some hf
      simpa using this
    refine ⟨?_, List.mem_map.2 ⟨e, hmem, hkey⟩⟩
    by_cases hp : e.2 = p <;> simp [hp]

theorem reserve_length (reg : Registry) (a p : String) :
    (reg.ReserveGoPackageAlias a p).1.pkgAliases.length ≤ reg.pkgAliases.length + 1 := by
  unfold Registry.ReserveGoPackageAlias
  cases hf : reg.pkgAliases.find? (fun e => e.1 == a) with
  | none => simp
  | some e => by_cases hp : e.2 = p <;> simp [hp]

theorem exists_accepted (reg : Registry) (name p : String) (fuel : Nat)
    (h : reg.pkgAliases.length < fuel) :
    ∃ k, k < fuel ∧ reg.accepts (suffixedAlias name k) p := by
  by_contra hno
  have hall : ∀ k, k < fuel → suffixedAlias name k ∈ reg.pkgAliases.map Prod.fst := by
    intro k hk
    exact (reserve_refused reg _ p (fun ha => hno ⟨k, hk, ha⟩)).2
  have hnd : ((List.range fuel).map (suffixedAlias name)).Nodup :=
    (List.nodup_range fuel).map (fun i j hij => suffixedAlias_injective name i j hij)
  have hsub : (List.range fuel).map (suffixedAlias name) ⊆ reg.pkgAliases.map Prod.fst := by
    intro x hx
    obtain ⟨k, hk, rfl⟩ := List.mem_map.1 hx
    exact hall k (List.mem_range.1 hk)
  have hle := (List.subperm_of_subset hnd hsub).length_le
  simp only [List.length_map, List.length_range] at hle
  omega

theorem exists_first_accepted (reg : Registry) (name p : String) (fuel : Nat)
    (h : reg.pkgAliases.length < fuel) :
    ∃ k, k < fuel ∧ reg.accepts (suffixedAlias name k) p ∧
      ∀ j, j < k → ¬ reg.accepts (suffixedAlias name j) p := by
  classical
  have hex : ∃ k, reg.accepts (suffixedAlias name k) p := by
    obtain ⟨k, -, hk⟩ := exists_accepted reg name p fuel h
    exact ⟨k, hk⟩
  obtain ⟨k, hk, hacc⟩ := exists_accepted reg name p fuel h
  refine ⟨Nat.find hex, ?_, Nat.find_spec hex, ?_⟩
  · exact lt_of_le_of_lt (Nat.find_min' hex hacc) hk
  · intro j hj
    exact Nat.find_min hex hj

theorem reserveSuffixedAlias_first (name p : String) (reg : Registry) :
    ∀ (fuel i k : Nat), k < fuel →
      reg.accepts (suffixedAlias name (i + k)) p →
      (∀ j, j < k → ¬ reg.accepts (suffixedAlias name (i + j)) p) →
      reserveSuffixedAlias name p fuel i reg =
        some ((reg.ReserveGoPackageAlias (suffixedAlias name (i + k)) p).1,
          suffixedAlias name (i + k)) := by
  intro fuel
  induction fuel with
  | zero => intro i k hk; omega
  | succ fuel ih =>
    intro i k hk hacc hmin
    cases k with
    | zero =>
      simp only [Nat.add_zero] at hacc ⊢
      unfold Registry.accepts at hacc
      unfold reserveSuffixedAlias
      rcases hr : reg.ReserveGoPackageAlias (suffixedAlias name i) p with ⟨reg1, err⟩
      rw [hr] at hacc
      simp only at hacc
      subst hacc
      rfl
    | succ k =>
      have h0 : ¬ reg.accepts (suffixedAlias name i) p := by
        have := hmin 0 (by omega)
        simpa using this
      obtain ⟨hreg, -⟩ := reserve_refused reg _ p h0
      unfold Registry.accepts at h0
      unfold reserveSuffixedAlias
      rcases hr : reg.ReserveGoPackageAlias (suffixedAlias name i) p with ⟨reg1, err⟩
      rw [hr] at h0 hreg
      simp only at h0 hreg
      subst hreg
      cases err with
      | none => exact absurd rfl h0
      | some msg =>
        simp only
        have := ih (i + 1) k (by omega)
          (by rw [show i + 1 + k = i + (k + 1) by omega]; exact hacc)
          (by
            intro j hj
            rw [show i + 1 + j = i + (j + 1) by omega]
            exact hmin (j + 1) (by omega))
        rw [this, show i + 1 + k = i + (k + 1) by omega]

theorem NewBaseImport_spec (reg : Registry) (fuel : Nat) (pkgpath : String)
    (h : reg.pkgAliases.length < fuel) :
    ∃ reg' pkg, NewBaseImport fuel reg pkgpath = some (reg', pkg) ∧
      pkg.Path = pkgpath ∧ pkg.Name = pathBase pkgpath ∧
      ((reg.accepts (pathBase pkgpath) pkgpath ∧ pkg.Alias = "" ∧
          reg' = (reg.ReserveGoPackageAlias (pathBase pkgpath) pkgpath).1) ∨
        (¬ reg.accepts (pathBase pkgpath) pkgpath ∧
          ∃ i, pkg.Alias = suffixedAlias (pathBase pkgpath) i ∧
            reg.accepts (suffixedAlias (pathBase pkgpath) i) pkgpath ∧
            (∀ j, j < i → ¬ reg.accepts (suffixedAlias (pathBase pkgpath) j) pkgpath) ∧
            reg' = (reg.ReserveGoPackageAlias (suffixedAlias (pathBase pkgpath) i) pkgpath).1)) := by
  by_cases hacc : reg.accepts (pathBase pkgpath) pkgpath
  · refine ⟨(reg.ReserveGoPackageAlias (pathBase pkgpath) pkgpath).1,
      { Path := pkgpath, Name := pathBase pkgpath, Alias := "" }, ?_, rfl, rfl,
      Or.inl ⟨hacc, rfl, rfl⟩⟩
    unfold Registry.accepts at hacc
    rcases hr : reg.ReserveGoPackageAlias (pathBase pkgpath) pkgpath with ⟨reg1, err⟩
    rw [hr] at hacc
    simp only at hacc
    subst hacc
    simp only [NewBaseImport, hr]
  · obtain ⟨k, hk, hka, hkmin⟩ := exists_first_accepted reg (pathBase pkgpath) pkgpath fuel h
    have hloop := reserveSuffixedAlias_first (pathBase pkgpath) pkgpath reg fuel 0 k hk
      (by simpa using hka) (by intro j hj; simpa using hkmin j hj)
    simp only [Nat.zero_add] at hloop
    refine ⟨(reg.ReserveGoPackageAlias (suffixedAlias (pathBase pkgpath) k) pkgpath).1,
      { Path := pkgpath, Name := pathBase pkgpath,
        Alias := suffixedAlias (pathBase pkgpath) k }, ?_, rfl, rfl,
      Or.inr ⟨hacc, k, rfl, hka, hkmin, rfl⟩⟩
    obtain ⟨hreg, -⟩ := reserve_refused reg _ pkgpath hacc
    have hacc' := hacc
    unfold Registry.accepts at hacc'
    rcases hr : reg.ReserveGoPackageAlias (pathBase pkgpath) pkgpath with ⟨reg1, err⟩
    rw [hr] at hacc' hreg
    simp only at hacc' hreg
    subst hreg
    cases err with
    | none => exact absurd rfl hacc'
    | some msg => simp only [NewBaseImport, hr, hloop]

theorem NewBaseImport_length (reg reg1 : Registry) (fuel : Nat) (pkgpath : String)
    (pkg : GoPackage) (h : reg.pkgAliases.length < fuel)
    (hr : NewBaseImport fuel reg pkgpath = some (reg1, pkg)) :
    reg1.pkgAliases.length ≤ reg.pkgAliases.length + 1 ∧ pkg.Path = pkgpath := by
  obtain ⟨reg', pkg', he, hp, -, hcase⟩ := NewBaseImport_spec reg fuel pkgpath h
  rw [he] at hr
  simp only [Option.some.injEq, Prod.mk.injEq] at hr
  obtain ⟨rfl, rfl⟩ := hr
  refine ⟨?_, hp⟩
  rcases hcase with ⟨-, -, hreg⟩ | ⟨-, i, -, -, -, hreg⟩
  · rw [hreg]; exact reserve_length _ _ _
  · rw [hreg]; exact reserve_length _ _ _

theorem NewBaseImport_firstAccepted (reg : Registry) (fuel : Nat) (pkgpath : String)
    (h : reg.pkgAliases.length < fuel) :
    ∃ reg' pkg, NewBaseImport fuel reg pkgpath = some (reg', pkg) ∧
      firstAccepted reg pkgpath reg' pkg ∧
      reg'.pkgAliases.length ≤ reg.pkgAliases.length + 1 := by
  obtain ⟨reg', pkg, he, hp, hn, hcase⟩ := NewBaseImport_spec reg fuel pkgpath h
  exact ⟨reg', pkg, he, ⟨hp, hn, hcase⟩, (NewBaseImport_length reg reg' fuel pkgpath pkg h he).1⟩

theorem NewBaseImports_reservedInTurn (fuel : Nat) :
    ∀ (paths : List String) (reg : Registry) (imports : List GoPackage),
      reg.pkgAliases.length + paths.length ≤ fuel →
      ∃ reg' pkgs, NewBaseImports fuel paths reg imports = some (reg', imports ++ pkgs) ∧
        reservedInTurn paths reg reg' pkgs := by
  intro paths
  induction paths with
  | nil =>
    intro reg imports _
    exact ⟨reg, [], by simp [NewBaseImports], rfl, rfl⟩
  | cons p paths ih =>
    intro reg imports h
    simp only [List.length_cons] at h
    have hlt : reg.pkgAliases.length < fuel := by omega
    obtain ⟨reg1, pkg, he, hfirst, hlen⟩ := NewBaseImport_firstAccepted reg fuel p hlt
    obtain ⟨reg', tail, h1, h2⟩ := ih reg1 (imports ++ [pkg]) (by omega)
    refine ⟨reg', pkg :: tail, ?_, reg1, pkg, tail, rfl, hfirst, h2⟩
    simp only [NewBaseImports, he, h1, List.append_assoc, List.singleton_append]

theorem NewFixedAliases_ok :
    ∀ (pkgs : List GoPackage) (reg reg' : Registry) (imports imports' : List GoPackage),
      NewFixedAliases pkgs reg imports = .ok (reg', imports') →
        imports' = imports ++ pkgs.map withBaseName ∧
        reg' = pkgs.foldl (fun r p => (r.ReserveGoPackageAlias p.Alias p.Path).1) reg := by
  intro pkgs
  induction pkgs with
  | nil =>
    intro reg reg' imports imports' h
    simp only [NewFixedAliases, Except.ok.injEq, Prod.mk.injEq] at h
    rw [← h.2, ← h.1]; simp
  | cons pkg pkgs ih =>
    intro reg reg' imports imports' h
    unfold NewFixedAliases at h
    rcases hr : reg.ReserveGoPackageAlias pkg.Alias pkg.Path with ⟨reg1, err⟩
    simp only [hr] at h
    cases err with
    | some msg => simp at h
    | none =>
      simp only at h
      obtain ⟨e1, e2⟩ := ih _ _ _ _ h
      refine ⟨?_, ?_⟩
      · rw [e1]; simp [withBaseName]
      · rw [e2]; simp [hr]

/-- C14: for every registry, with a bound on the retry loops of at least the
number of aliases the registry holds plus the number of support modules, `New`
returns.  There are packages `pkgs`, one per support module in order, and a
registry `reg1` such that each module got the first alias accepted by the
registry as the earlier modules left it (the base name of its path with an
empty explicit alias when the base name is accepted, otherwise `base_i` for the
least `i` accepted), `reg1` holding those reservations; and `New` either panics
in its second loop, run from `reg1`, or returns the generator whose base
imports are `pkgs` followed by the two fixed-alias packages, with the registry
holding the two fixed aliases as well. -/
theorem C14_New_terminates_first_accepted_alias (reg : Registry) (fuel : Nat)
    (useRequestContext : Bool) (registerFuncSuffix : String)
    (allowPatchFeature standalone : Bool)
    (h : reg.pkgAliases.length + supportPackages.length ≤ fuel) :
    ∃ reg1 pkgs, reservedInTurn supportPackages reg reg1 pkgs ∧
      ((∃ msg, NewFixedAliases fixedAliasPackages reg1 pkgs = .error msg ∧
          New fuel reg useRequestContext registerFuncSuffix allowPatchFeature standalone =
            some (.error msg)) ∨
        (∃ reg2,
          reg2 = fixedAliasPackages.foldl
            (fun r p => (r.ReserveGoPackageAlias p.Alias p.Path).1) reg1 ∧
          NewFixedAliases fixedAliasPackages reg1 pkgs =
            .ok (reg2, pkgs ++ fixedAliasPackages.map withBaseName) ∧
          New fuel reg useRequestContext registerFuncSuffix allowPatchFeature standalone =
            some (.ok (reg2,
              { baseImports := pkgs ++ fixedAliasPackages.map withBaseName
                useRequestContext := useRequestContext
                registerFuncSuffix := registerFuncSuffix
                allowPatchFeature := allowPatchFeature
                standalone := standalone })))) := by
  obtain ⟨reg1, pkgs, h1, h2⟩ := NewBaseImports_reservedInTurn fuel supportPackages reg [] h
  simp only [List.nil_append] at h1
  refine ⟨reg1, pkgs, h2, ?_⟩
  cases hf : NewFixedAliases fixedAliasPackages reg1 pkgs with
  | error msg =>
    refine Or.inl ⟨msg, rfl, ?_⟩
    simp only [New, h1, hf]
  | ok r =>
    obtain ⟨reg2, imports2⟩ := r
    obtain ⟨hi, hreg⟩ := NewFixedAliases_ok _ _ _ _ _ hf
    subst hi
    refine Or.inr ⟨reg2, hreg, rfl, ?_⟩
    simp only [New, h1, hf]

/-- C14, at a sample input: on a registry where `runtime` and `runtime_0` are
held by other modules and with a bound of sixteen, `New` returns a generator;
the runtime module carries the explicit alias `runtime_1`, the other support
modules none, and the two fixed-alias packages close the list. -/
theorem C14_New_terminates_first_accepted_alias_witness :
    exTakenRegistry.pkgAliases.length + supportPackages.length ≤ 16 ∧
    (∃ reg1 pkgs, reservedInTurn supportPackages exTakenRegistry reg1 pkgs ∧
      ((∃ msg, NewFixedAliases fixedAliasPackages reg1 pkgs = .error msg ∧
          New 16 exTakenRegistry false "Handler" true false = some (.error msg)) ∨
        (∃ reg2,
          reg2 = fixedAliasPackages.foldl
            (fun r p => (r.ReserveGoPackageAlias p.Alias p.Path).1) reg1 ∧
          NewFixedAliases fixedAliasPackages reg1 pkgs =
            .ok (reg2, pkgs ++ fixedAliasPackages.map withBaseName) ∧
          New 16 exTakenRegistry false "Handler" true false =
            some (.ok (reg2,
              { baseImports := pkgs ++ fixedAliasPackages.map withBaseName
                useRequestContext := false
                registerFuncSuffix := "Handler"
                allowPatchFeature := true
                standalone := false }))))) ∧
    NewAliases (New 16 exTakenRegistry false "Handler" true false) =
      ["", "", "", "", "", "", "runtime_1", "", "", "", "", "", "", "", "grpc_go",
        "grpc_go_md"] :=
  ⟨by decide,
    C14_New_terminates_first_accepted_alias exTakenRegistry 16 false "Handler" true false
      (by decide),
    by decide⟩

end gengateway
